import Mathlib

/-!
Verification development for the obsidian-skill-tree plugin
(src/skilltree-view.ts and companions).

The graph state-propagation engine (`applyConnectionStateRules`,
`markAncestorsUnavailable`), the undo/redo history manager
(`recordSnapshot` / `undo` / `redo`), the edge-mutation guards of the
mouseup handler, node creation (`addNode`) and the drag
collision-avoidance function (`findNonOverlappingPosition`) are embedded
as pure Lean functions.  Mutable node state (`node.state`, mutated
through the id-keyed lookup maps of the TypeScript code) is threaded as
an explicit assignment `StateMap : Nat → NodeState` keyed by node id;
this matches the source exactly when node ids are distinct, which is the
data-model invariant (`id` unique within a tree).  The unbounded
recursion of `markAncestorsUnavailable` is given an explicit fuel
parameter; the source recursion is bounded by its visited set, and the
fuel-independence theorem below recovers exactly that termination
argument.
-/

set_option linter.unusedVariables false

namespace SkillTree

/-- Lifecycle state of a node (TS union `'complete' | 'in-progress' | 'unavailable'`). -/
inductive NodeState where
  | complete
  | inProgress
  | unavailable
deriving DecidableEq, Repr

/-- A skill node (interfaces.ts `SkillNode`).  Coordinates are abstracted over
`α` (`Int` for the discrete claims, `ℝ` for the geometry claims).  The
presentation-only fields `label` and `fileLink` are not consulted by any
embedded operation and are omitted. -/
structure SkillNode (α : Type) where
  id : Nat
  x : α
  y : α
  state : NodeState
  exp : Int
  shape : String
deriving DecidableEq, Repr

/-- A directed edge (interfaces.ts `SkillEdge`).  `from`/`to` may be null while
an edge is being edited, hence `Option`.  (`from` is a reserved word in Lean,
so the fields are named `efrom`/`eto`.)  The side/coordinate hint fields are
rendering data not consulted by the embedded operations. -/
structure SkillEdge where
  id : Nat
  efrom : Option Nat
  eto : Option Nat
deriving DecidableEq, Repr

/-- Node states keyed by node id (the TS code mutates `node.state` through
id-keyed maps; with unique ids this is the same thing). -/
abbrev StateMap := Nat → NodeState

/-- Functional update of a state map at one id. -/
def updateState (σ : StateMap) (i : Nat) (s : NodeState) : StateMap :=
  fun j => if j = i then s else σ j

/-- Is there a node with this id (`idToNode.get(i)` succeeds)? -/
def hasId {α : Type} (ns : List (SkillNode α)) (i : Nat) : Bool :=
  ns.any (fun n => decide (n.id = i))

/-- TS `this.edges.some((ee) => ee.from === n.id || ee.to === n.id)`. -/
def hasAnyConnection (es : List SkillEdge) (i : Nat) : Bool :=
  es.any (fun e => decide (e.efrom = some i) || decide (e.eto = some i))

/-- The (from,to) pairs that enter `parentsMap`/`childrenMap`: edges whose two
endpoints are non-null and resolve to existing nodes, in edge order. -/
def realPairs {α : Type} (ns : List (SkillNode α)) (es : List SkillEdge) :
    List (Nat × Nat) :=
  es.filterMap (fun e =>
    match e.efrom, e.eto with
    | some f, some t => if hasId ns f && hasId ns t then some (f, t) else none
    | _, _ => none)

/-- `childrenMap.get(i)` as a list of child ids (nodes that point TO `i`). -/
def childrenIds {α : Type} (ns : List (SkillNode α)) (es : List SkillEdge)
    (i : Nat) : List Nat :=
  ((realPairs ns es).filter (fun pr => decide (pr.2 = i))).map (fun pr => pr.1)

/-- `parentsMap.get(i)` as a list of parent ids (nodes `i` points to). -/
def parentsIds {α : Type} (ns : List (SkillNode α)) (es : List SkillEdge)
    (i : Nat) : List Nat :=
  ((realPairs ns es).filter (fun pr => decide (pr.1 = i))).map (fun pr => pr.2)

/-- The cached task list of a node, reduced to its completion flags
(`this._tasksCache.get(n.id) || []`). -/
abbrev TaskMap := Nat → List Bool

/-- TS `hasTasks && tasks.every((task) => task.completed)`. -/
def tasksAllComplete (tasks : TaskMap) (i : Nat) : Bool :=
  !(tasks i).isEmpty && (tasks i).all (fun b => b)

/-- One iteration of Rule 1/2 of `applyConnectionStateRules` for node `n`:
a disconnected node with no children becomes complete when all of its tasks
are complete, else unavailable unless already complete; a connected node (or
a disconnected one with children, dead code) is left alone. -/
def rule1Step {α : Type} (ns : List (SkillNode α)) (es : List SkillEdge)
    (tasks : TaskMap) (σ : StateMap) (n : SkillNode α) : StateMap :=
  if hasAnyConnection es n.id then σ
  else if (childrenIds ns es n.id).isEmpty then
    if tasksAllComplete tasks n.id then updateState σ n.id NodeState.complete
    else if σ n.id ≠ NodeState.complete then
      updateState σ n.id NodeState.unavailable
    else σ
  else σ

/-- Rule 1/2 folded over a node list. -/
def rule1Aux {α : Type} (ns : List (SkillNode α)) (es : List SkillEdge)
    (tasks : TaskMap) (l : List (SkillNode α)) (σ : StateMap) : StateMap :=
  l.foldl (rule1Step ns es tasks) σ

/-- Rules 1 and 2 of `applyConnectionStateRules` (the loop over `this.nodes`). -/
def rule1 {α : Type} (ns : List (SkillNode α)) (es : List SkillEdge)
    (tasks : TaskMap) (σ : StateMap) : StateMap :=
  rule1Aux ns es tasks ns σ

/-- TS `markAncestorsUnavailable(nodeId, visited)`: mark `nodeId` unavailable
unless complete, then recurse into its parents, guarded by the visited set.
The TS recursion carries no fuel; `fuel` bounds the recursion depth and the
fuel-independence theorem shows any fuel ≥ `ns.length + 1` computes the
fixpoint the source computes. -/
def markAncestorsUnavailable {α : Type} (ns : List (SkillNode α))
    (es : List SkillEdge) : Nat → Nat → List Nat → StateMap → StateMap × List Nat
  | 0, _, visited, σ => (σ, visited)
  | fuel + 1, nodeId, visited, σ =>
    if nodeId ∈ visited then (σ, visited)
    else
      let visited1 := nodeId :: visited
      let σ1 := if hasId ns nodeId then
          (if σ nodeId ≠ NodeState.complete then
            updateState σ nodeId NodeState.unavailable
          else σ)
        else σ
      (parentsIds ns es nodeId).foldl
        (fun r p => markAncestorsUnavailable ns es fuel p r.2 r.1) (σ1, visited1)

/-- The fold of `markAncestorsUnavailable` over a list of start ids, as it
occurs in the recursive case (one call per parent, threading state and the
visited set). -/
def markAncList {α : Type} (ns : List (SkillNode α)) (es : List SkillEdge)
    (fuel : Nat) (ps : List Nat) (r : StateMap × List Nat) : StateMap × List Nat :=
  ps.foldl (fun r p => markAncestorsUnavailable ns es fuel p r.2 r.1) r

/-- One iteration of Rule 3 for edge `e`: when both endpoints are non-null,
the (existing) child becomes in-progress unless complete, and the (existing)
parent and its transitive ancestors are marked unavailable. -/
def rule3Step {α : Type} (ns : List (SkillNode α)) (es : List SkillEdge)
    (fuel : Nat) (σ : StateMap) (e : SkillEdge) : StateMap :=
  match e.efrom, e.eto with
  | some f, some t =>
    let σ1 := if hasId ns f && decide (σ f ≠ NodeState.complete) then
        updateState σ f NodeState.inProgress
      else σ
    if hasId ns t then (markAncestorsUnavailable ns es fuel t [] σ1).1 else σ1
  | _, _ => σ

/-- Rule 3 folded over an edge list. -/
def rule3Aux {α : Type} (ns : List (SkillNode α)) (es : List SkillEdge)
    (fuel : Nat) (l : List SkillEdge) (σ : StateMap) : StateMap :=
  l.foldl (rule3Step ns es fuel) σ

/-- Rule 3 of `applyConnectionStateRules` (the loop over `this.edges`),
with explicit ancestor-marking fuel. -/
def rule3Fuel {α : Type} (ns : List (SkillNode α)) (es : List SkillEdge)
    (fuel : Nat) (σ : StateMap) : StateMap :=
  rule3Aux ns es fuel es σ

/-- Rule 3 with the canonical sufficient fuel. -/
def rule3 {α : Type} (ns : List (SkillNode α)) (es : List SkillEdge)
    (σ : StateMap) : StateMap :=
  rule3Fuel ns es (ns.length + 1) σ

/-- One iteration of Rule 4 for node `n`: a node with children becomes
in-progress when all children are complete, else unavailable — in both cases
only if not itself complete. -/
def rule4Step {α : Type} (ns : List (SkillNode α)) (es : List SkillEdge)
    (σ : StateMap) (n : SkillNode α) : StateMap :=
  let children := childrenIds ns es n.id
  if children.isEmpty then σ
  else if children.all (fun c => decide (σ c = NodeState.complete)) then
    (if σ n.id ≠ NodeState.complete then
      updateState σ n.id NodeState.inProgress
    else σ)
  else
    (if σ n.id ≠ NodeState.complete then
      updateState σ n.id NodeState.unavailable
    else σ)

/-- Rule 4 folded over a node list. -/
def rule4Aux {α : Type} (ns : List (SkillNode α)) (es : List SkillEdge)
    (l : List (SkillNode α)) (σ : StateMap) : StateMap :=
  l.foldl (rule4Step ns es) σ

/-- Rule 4 of `applyConnectionStateRules` (the second loop over `this.nodes`). -/
def rule4 {α : Type} (ns : List (SkillNode α)) (es : List SkillEdge)
    (σ : StateMap) : StateMap :=
  rule4Aux ns es ns σ

/-- `applyConnectionStateRules` with explicit ancestor-marking fuel. -/
def applyRulesFuel {α : Type} (ns : List (SkillNode α)) (es : List SkillEdge)
    (tasks : TaskMap) (fuel : Nat) (σ : StateMap) : StateMap :=
  rule4 ns es (rule3Fuel ns es fuel (rule1 ns es tasks σ))

/-- TS `applyConnectionStateRules()`: Rules 1/2, then Rule 3 (with ancestor
marking), then Rule 4, on the node-state assignment.  The animation
bookkeeping (`_nodeStateChangeAnimations`) touches no node state and is not
modelled. -/
def applyConnectionStateRules {α : Type} (ns : List (SkillNode α))
    (es : List SkillEdge) (tasks : TaskMap) (σ : StateMap) : StateMap :=
  rule4 ns es (rule3 ns es (rule1 ns es tasks σ))

/-- The state assignment read off a node list (state of the first node with a
given id, as `nodes.find` would produce; ids are unique in the data model). -/
def statesOf {α : Type} (ns : List (SkillNode α)) : StateMap :=
  fun i =>
    match ns.find? (fun n => decide (n.id = i)) with
    | some n => n.state
    | none => NodeState.unavailable

/-- One full pass over a node list, starting from the states stored in it. -/
def runPass {α : Type} (ns : List (SkillNode α)) (es : List SkillEdge)
    (tasks : TaskMap) : StateMap :=
  applyConnectionStateRules ns es tasks (statesOf ns)

/-! ## History manager (`getSnapshot` / `applySnapshot` / `recordSnapshot` /
`undo` / `redo`).  A snapshot holds deep copies of `(nodes, edges)`; on plain
data `JSON.parse(JSON.stringify(x))` is the identity, so a snapshot is a plain
value here. -/

/-- A history snapshot: the `(nodes, edges)` pair. -/
abbrev Snapshot := List (SkillNode Int) × List SkillEdge

/-- The history-relevant slice of the view: current graph, both history
stacks, and the `_suppressHistory` flag. -/
structure ViewState where
  nodes : List (SkillNode Int)
  edges : List SkillEdge
  historyPast : List Snapshot
  historyFuture : List Snapshot
  suppressHistory : Bool
deriving DecidableEq, Repr

/-- TS `getSnapshot()`: deep copy of the current `(nodes, edges)`. -/
def getSnapshot (v : ViewState) : Snapshot :=
  (v.nodes, v.edges)

/-- TS `applySnapshot(snap)`: restore `(nodes, edges)` from the snapshot; the
suppress flag is set during the restore and reset to `false` in `finally`. -/
def applySnapshot (v : ViewState) (s : Snapshot) : ViewState :=
  { v with nodes := s.1, edges := s.2, suppressHistory := false }

/-- TS `recordSnapshot()`: no-op under suppression, else push the current
snapshot onto the past stack, clear the future stack, and drop the oldest
entry when the stack exceeds 100. -/
def recordSnapshot (v : ViewState) : ViewState :=
  if v.suppressHistory then v
  else
    let past := v.historyPast ++ [getSnapshot v]
    { v with
      historyPast := if past.length > 100 then past.tail else past
      historyFuture := [] }

/-- TS `undo()`: when the past stack is non-empty, pop its newest snapshot,
push the current state onto the future stack and restore the popped one. -/
def undo (v : ViewState) : ViewState :=
  if v.historyPast.isEmpty then v
  else
    match v.historyPast.getLast? with
    | none => v
    | some prev =>
      applySnapshot
        { v with
          historyPast := v.historyPast.dropLast
          historyFuture := v.historyFuture ++ [getSnapshot v] } prev

/-- TS `redo()`: symmetric to `undo` on the future stack. -/
def redo (v : ViewState) : ViewState :=
  if v.historyFuture.isEmpty then v
  else
    match v.historyFuture.getLast? with
    | none => v
    | some next =>
      applySnapshot
        { v with
          historyFuture := v.historyFuture.dropLast
          historyPast := v.historyPast ++ [getSnapshot v] } next

/-- Replace the current graph, leaving history alone: an arbitrary mutation of
`nodes`/`edges` between history operations. -/
def setGraph (v : ViewState) (ns : List (SkillNode Int)) (es : List SkillEdge) :
    ViewState :=
  { v with nodes := ns, edges := es }

/-- One recorded action: mutate the graph to `p`, then record — the pushed
snapshot is the state at recording time. -/
def recordedAction (v : ViewState) (p : Snapshot) : ViewState :=
  recordSnapshot (setGraph v p.1 p.2)

/-! ## Edge mutations of the mouseup handler (self-loop / duplicate guards). -/

/-- Edge creation at mouseup (lines 1546-1571): dropping a new edge from
`creatingEdgeFrom` onto `targetNode` creates it only when the target is a
different node and no edge with the identical (from,to) pair exists.  The
side hints set on the created edge are rendering data not modelled. -/
def attemptCreateEdge (es : List SkillEdge) (creatingFromId targetNodeId newId : Nat) :
    List SkillEdge :=
  if targetNodeId ≠ creatingFromId then
    if es.any (fun ee => ee.efrom == some creatingFromId && ee.eto == some targetNodeId) then
      es
    else es ++ [⟨newId, some creatingFromId, some targetNodeId⟩]
  else es

/-- Which endpoint of an edge is being dragged (`de.which`). -/
inductive EndpointKind where
  | fromEnd
  | toEnd
deriving DecidableEq, Repr

/-- Edge endpoint reattachment at mouseup (lines 1463-1502): dropping the
dragged endpoint on a node retargets the edge only when that would not make
`from` and `to` equal and no other edge (by id) already carries the resulting
(from,to) pair.  Side recomputation and the orphan check on the detached node
concern other state and are not part of the edge-list update. -/
def reattachOtherEnd (edge : SkillEdge) (which : EndpointKind) : Option Nat :=
  match which with
  | EndpointKind.fromEnd => edge.eto
  | EndpointKind.toEnd => edge.efrom

/-- The `from` endpoint the edge would have after the reattachment. -/
def reattachResultFrom (edge : SkillEdge) (which : EndpointKind)
    (targetNodeId : Nat) : Option Nat :=
  match which with
  | EndpointKind.fromEnd => some targetNodeId
  | EndpointKind.toEnd => edge.efrom

/-- The `to` endpoint the edge would have after the reattachment. -/
def reattachResultTo (edge : SkillEdge) (which : EndpointKind)
    (targetNodeId : Nat) : Option Nat :=
  match which with
  | EndpointKind.fromEnd => edge.eto
  | EndpointKind.toEnd => some targetNodeId

def attemptReattachEdge (es : List SkillEdge) (edgeId : Nat)
    (which : EndpointKind) (targetNodeId : Nat) : List SkillEdge :=
  match es.find? (fun ee => ee.id == edgeId) with
  | none => es
  | some edge =>
    let candFrom := reattachResultFrom edge which targetNodeId
    let candTo := reattachResultTo edge which targetNodeId
    if some targetNodeId ≠ reattachOtherEnd edge which ∧
        (es.any (fun ee =>
          ee.id != edge.id && ee.efrom == candFrom && ee.eto == candTo)) = false then
      es.map (fun ee =>
        if ee.id = edge.id then { ee with efrom := candFrom, eto := candTo } else ee)
    else es

/-! ## Node creation (`addNode`). -/

/-- The `nodeShape` entry of `SKILL_TREE_STYLES` (interfaces.ts): only the
gamified style declares a node shape. -/
def skillTreeStylesNodeShape (style : String) : Option String :=
  if style = "gamified" then some "hexagon" else none

/-- Does a style key exist in `SKILL_TREE_STYLES`? -/
def skillTreeStylesHasKey (style : String) : Bool :=
  style == "simple-light" || style == "simple-dark" || style == "gamified"

/-- TS `addNode(x, y)`: push a node with the style-derived default shape
(star demoted to circle), `exp` 10 and state `'unavailable'`.  The id is
`Date.now() + Math.random()` in the source and is taken as a parameter. -/
def addNode {α : Type} (settingsStyle : String) (newId : Nat) (x y : α) :
    SkillNode α :=
  let selectedStyle := if settingsStyle = "" then "default" else settingsStyle
  let defaultShape := (skillTreeStylesNodeShape selectedStyle).getD "circle"
  let defaultShape := if defaultShape = "star" then "circle" else defaultShape
  { id := newId, x := x, y := y, state := NodeState.unavailable, exp := 10,
    shape := defaultShape }


/-! ## Concrete instances used by the witness and counterexample theorems. -/

/-- Ids that some ancestor-marking call can recurse into: the second
components of the real (from,to) pairs. -/
def isAncTarget {α : Type} (ns : List (SkillNode α)) (es : List SkillEdge)
    (j : Nat) : Bool :=
  (realPairs ns es).any (fun pr => decide (pr.2 = j))

/-- Distinct node ids not yet visited: the quantity the visited set shrinks
when the ancestor marking enters a node. -/
def unseenCount {α : Type} (ns : List (SkillNode α)) (vis : List Nat) : Nat :=
  ((ns.map (fun n => n.id)).toFinset.filter (fun i => i ∉ vis)).card

def completeSampleNodes : List (SkillNode Int) :=
  [⟨1, 0, 0, NodeState.complete, 10, "circle"⟩]

def promoNodes : List (SkillNode Int) :=
  [⟨1, 0, 0, NodeState.complete, 10, "circle"⟩,
   ⟨2, 0, 0, NodeState.inProgress, 10, "circle"⟩]

def promoEdges : List SkillEdge := [⟨7, some 1, some 2⟩]

def promoParent : SkillNode Int := ⟨2, 0, 0, NodeState.inProgress, 10, "circle"⟩

def cycleNodes : List (SkillNode Int) :=
  [⟨1, 0, 0, NodeState.inProgress, 10, "circle"⟩,
   ⟨2, 0, 0, NodeState.inProgress, 10, "circle"⟩,
   ⟨3, 0, 0, NodeState.inProgress, 10, "circle"⟩]

def cycleEdges : List SkillEdge :=
  [⟨10, some 1, some 2⟩, ⟨11, some 2, some 3⟩, ⟨12, some 3, some 1⟩]

def lockNodes : List (SkillNode Int) :=
  [⟨1, 0, 0, NodeState.inProgress, 10, "circle"⟩,
   ⟨2, 0, 0, NodeState.complete, 10, "circle"⟩,
   ⟨3, 0, 0, NodeState.inProgress, 10, "circle"⟩]

def lockEdges : List SkillEdge := [⟨10, some 1, some 2⟩, ⟨11, some 2, some 3⟩]

def sampleSnap : Snapshot :=
  ([⟨5, 0, 0, NodeState.inProgress, 10, "circle"⟩], [⟨9, some 5, none⟩])

def sampleView : ViewState :=
  { nodes := [⟨1, 2, 3, NodeState.complete, 10, "circle"⟩]
    edges := []
    historyPast := []
    historyFuture := [(([], []) : Snapshot)]
    suppressHistory := false }

def emptyHistoryView : ViewState :=
  { nodes := [], edges := [], historyPast := [], historyFuture := [],
    suppressHistory := false }

def sampleEdges : List SkillEdge := [⟨1, some 2, some 3⟩]

/-! ## Drag collision avoidance (`findNonOverlappingPosition`, C8).

Float arithmetic is embedded over `ℝ`; `Math.atan2`, `Math.cos`, `Math.sin`
and `Math.sqrt` become their real counterparts.  `Math.random()` in the
coincident-node branch is taken as the parameter `randAngle`. -/

noncomputable section GeometryDefs

/-- `Math.atan2(y, x)` as the argument of the complex number `x + iy`. -/
def atan2 (y x : ℝ) : ℝ := Complex.arg ⟨x, y⟩

/-- The `this.nodeRadii[id] || this.settings.nodeRadius` read: a missing or
zero (falsy) cached radius falls back to the settings radius. -/
def effectiveRadius (nodeRadii : Nat → Option ℝ) (settingsRadius : ℝ)
    (i : Nat) : ℝ :=
  match nodeRadii i with
  | some r => if r = 0 then settingsRadius else r
  | none => settingsRadius

/-- The loop of `findNonOverlappingPosition` over `this.nodes`: skip the
dragged node itself; at the first node within
`draggingRadius + otherRadius + 20` of the target, push away radially to
exactly that distance (random direction when the distance is below 0.001)
and return; if no node conflicts, return the target unchanged. -/
def findNonOverlappingPositionAux (nodeRadii : Nat → Option ℝ)
    (settingsRadius randAngle targetX targetY : ℝ) (draggingNode : SkillNode ℝ) :
    List (SkillNode ℝ) → ℝ × ℝ
  | [] => (targetX, targetY)
  | otherNode :: rest =>
    if otherNode.id = draggingNode.id then
      findNonOverlappingPositionAux nodeRadii settingsRadius randAngle targetX
        targetY draggingNode rest
    else
      let draggingRadius := effectiveRadius nodeRadii settingsRadius
        draggingNode.id
      let otherRadius := effectiveRadius nodeRadii settingsRadius otherNode.id
      let minDistance := draggingRadius + otherRadius + 20
      let dx := targetX - otherNode.x
      let dy := targetY - otherNode.y
      let distance := Real.sqrt (dx * dx + dy * dy)
      if distance < minDistance then
        if distance < 0.001 then
          (otherNode.x + Real.cos randAngle * minDistance,
           otherNode.y + Real.sin randAngle * minDistance)
        else
          let pushAngle := atan2 dy dx
          (otherNode.x + Real.cos pushAngle * minDistance,
           otherNode.y + Real.sin pushAngle * minDistance)
      else
        findNonOverlappingPositionAux nodeRadii settingsRadius randAngle targetX
          targetY draggingNode rest

/-- TS `findNonOverlappingPosition(targetX, targetY, draggingNode)` with the
surrounding state (`this.nodes`, `this.nodeRadii`, `this.settings.nodeRadius`)
passed explicitly; `minMargin = 20`. -/
def findNonOverlappingPosition (nodes : List (SkillNode ℝ))
    (nodeRadii : Nat → Option ℝ) (settingsRadius randAngle targetX targetY : ℝ)
    (draggingNode : SkillNode ℝ) : ℝ × ℝ :=
  findNonOverlappingPositionAux nodeRadii settingsRadius randAngle targetX
    targetY draggingNode nodes

def dragNode : SkillNode ℝ := ⟨3, 0, 0, NodeState.inProgress, 10, "circle"⟩

def overlapNodes1 : List (SkillNode ℝ) :=
  [⟨1, 0, 0, NodeState.inProgress, 10, "circle"⟩,
   ⟨2, 150, 0, NodeState.inProgress, 10, "circle"⟩]

def overlapNodes2 : List (SkillNode ℝ) :=
  [⟨1, 0, 0, NodeState.inProgress, 10, "circle"⟩,
   ⟨2, 120, 0, NodeState.inProgress, 10, "circle"⟩]

def stdRadii : Nat → Option ℝ := fun _ => some 40

end GeometryDefs

/-! ## Pointwise lemmas about the propagation pass. -/

section PropagationLemmas

variable {α : Type} (ns : List (SkillNode α)) (es : List SkillEdge) (tasks : TaskMap)

lemma updateState_self (σ : StateMap) (i : Nat) (s : NodeState) :
    updateState σ i s i = s := by
  simp [updateState]

lemma updateState_other (σ : StateMap) (i j : Nat) (s : NodeState) (h : j ≠ i) :
    updateState σ i s j = σ j := by
  simp [updateState, h]

lemma rule1Step_other (σ : StateMap) (n : SkillNode α) (j : Nat) (h : j ≠ n.id) :
    rule1Step ns es tasks σ n j = σ j := by
  unfold rule1Step
  split
  · rfl
  · split
    · split
      · exact updateState_other σ n.id j NodeState.complete h
      · split
        · exact updateState_other σ n.id j NodeState.unavailable h
        · rfl
    · rfl

lemma rule1Aux_pointwise : ∀ (l : List (SkillNode α)) (σ : StateMap) (i : Nat),
    rule1Aux ns es tasks l σ i =
      if l.any (fun m => decide (m.id = i)) &&
          (!hasAnyConnection es i && (childrenIds ns es i).isEmpty) then
        (if tasksAllComplete tasks i then NodeState.complete
         else if σ i = NodeState.complete then NodeState.complete
         else NodeState.unavailable)
      else σ i := by
  intro l
  induction l with
  | nil =>
    intro σ i
    simp [rule1Aux]
  | cons n l ih =>
    intro σ i
    rw [show rule1Aux ns es tasks (n :: l) σ =
      rule1Aux ns es tasks l (rule1Step ns es tasks σ n) from rfl, ih]
    by_cases hni : n.id = i
    · subst hni
      by_cases hconn : hasAnyConnection es n.id = true
      · have hstep : rule1Step ns es tasks σ n = σ := by
          unfold rule1Step
          rw [if_pos hconn]
        rw [hstep]
        simp [hconn]
      · by_cases hch : (childrenIds ns es n.id).isEmpty = true
        · by_cases htc : tasksAllComplete tasks n.id = true
          · have hstep : rule1Step ns es tasks σ n =
                updateState σ n.id NodeState.complete := by
              unfold rule1Step
              rw [if_neg hconn, if_pos hch, if_pos htc]
            rw [hstep]
            simp [hconn, hch, htc, updateState_self]
          · by_cases hc : σ n.id = NodeState.complete
            · have hstep : rule1Step ns es tasks σ n = σ := by
                unfold rule1Step
                rw [if_neg hconn, if_pos hch, if_neg htc, if_neg (by simp [hc])]
              rw [hstep]
              simp [hconn, hch, htc, hc]
            · have hstep : rule1Step ns es tasks σ n =
                  updateState σ n.id NodeState.unavailable := by
                unfold rule1Step
                rw [if_neg hconn, if_pos hch, if_neg htc, if_pos hc]
              rw [hstep]
              simp [hconn, hch, htc, hc, updateState_self]
        · have hstep : rule1Step ns es tasks σ n = σ := by
            unfold rule1Step
            rw [if_neg hconn, if_neg hch]
          rw [hstep]
          simp [hch]
    · have hstep : rule1Step ns es tasks σ n i = σ i :=
        rule1Step_other ns es tasks σ n i (fun h => hni h.symm)
      have hany : ((n :: l).any (fun m => decide (m.id = i))) =
          (l.any (fun m => decide (m.id = i))) := by
        simp [List.any_cons, hni]
      rw [hany, hstep]

lemma markAncList_nil (fuel : Nat) (r : StateMap × List Nat) :
    markAncList ns es fuel [] r = r := rfl

lemma markAncList_cons (fuel p : Nat) (ps : List Nat) (r : StateMap × List Nat) :
    markAncList ns es fuel (p :: ps) r =
      markAncList ns es fuel ps (markAncestorsUnavailable ns es fuel p r.2 r.1) := rfl

lemma markAnc_zero (i : Nat) (vis : List Nat) (σ : StateMap) :
    markAncestorsUnavailable ns es 0 i vis σ = (σ, vis) := rfl

lemma markAnc_succ (fuel i : Nat) (vis : List Nat) (σ : StateMap) :
    markAncestorsUnavailable ns es (fuel + 1) i vis σ =
      if i ∈ vis then (σ, vis)
      else markAncList ns es fuel (parentsIds ns es i)
        ((if hasId ns i then
            (if σ i ≠ NodeState.complete then updateState σ i NodeState.unavailable
             else σ)
          else σ), i :: vis) := rfl

lemma markAnc_sameComplete : ∀ fuel i (vis : List Nat) (σ : StateMap) (j : Nat),
    ((markAncestorsUnavailable ns es fuel i vis σ).1 j = NodeState.complete ↔
      σ j = NodeState.complete) := by
  intro fuel
  induction fuel with
  | zero => intro i vis σ j; exact Iff.rfl
  | succ fuel ih =>
    have ihList : ∀ (ps : List Nat) (r : StateMap × List Nat) (j : Nat),
        ((markAncList ns es fuel ps r).1 j = NodeState.complete ↔
          r.1 j = NodeState.complete) := by
      intro ps
      induction ps with
      | nil => intro r j; exact Iff.rfl
      | cons p ps ihp =>
        intro r j
        rw [markAncList_cons]
        exact (ihp _ j).trans (ih p r.2 r.1 j)
    intro i vis σ j
    rw [markAnc_succ]
    by_cases hv : i ∈ vis
    · rw [if_pos hv]
    · rw [if_neg hv]
      refine (ihList _ _ j).trans ?_
      by_cases hid : hasId ns i = true
      · by_cases hc : σ i = NodeState.complete
        · simp [hid, hc]
        · by_cases hji : j = i
          · subst hji
            simp [hid, hc, updateState_self]
          · simp [hid, hc, updateState_other σ i j NodeState.unavailable hji]
      · simp [hid]

lemma rule3Step_sameComplete (fuel : Nat) (σ : StateMap) (e : SkillEdge) (j : Nat) :
    (rule3Step ns es fuel σ e j = NodeState.complete ↔ σ j = NodeState.complete) := by
  rcases e with ⟨eid, ef, et⟩
  cases ef with
  | none => exact Iff.rfl
  | some f =>
    cases et with
    | none => exact Iff.rfl
    | some t =>
      show ((let σ1 := _; if hasId ns t then
        (markAncestorsUnavailable ns es fuel t [] σ1).1 else σ1) j =
          NodeState.complete ↔ _)
      have hσ1 : ∀ k, ((if hasId ns f && decide (σ f ≠ NodeState.complete) then
          updateState σ f NodeState.inProgress else σ) k = NodeState.complete ↔
          σ k = NodeState.complete) := by
        intro k
        by_cases hw : (hasId ns f && decide (σ f ≠ NodeState.complete)) = true
        · rw [if_pos hw]
          have hfc : ¬ σ f = NodeState.complete := by
            have := (Bool.and_eq_true _ _).mp hw
            exact of_decide_eq_true this.2
          by_cases hkf : k = f
          · subst hkf
            simp [updateState_self, hfc]
          · simp [updateState_other σ f k NodeState.inProgress hkf]
        · rw [if_neg hw]
      by_cases hid : hasId ns t = true
      · simp only [hid, if_true]
        exact (markAnc_sameComplete ns es fuel t [] _ j).trans (hσ1 j)
      · simp only [hid]
        simpa using hσ1 j

lemma rule3Aux_sameComplete : ∀ (l : List SkillEdge) (fuel : Nat) (σ : StateMap)
    (j : Nat), (rule3Aux ns es fuel l σ j = NodeState.complete ↔
      σ j = NodeState.complete) := by
  intro l
  induction l with
  | nil => intro fuel σ j; exact Iff.rfl
  | cons e l ih =>
    intro fuel σ j
    rw [show rule3Aux ns es fuel (e :: l) σ =
      rule3Aux ns es fuel l (rule3Step ns es fuel σ e) from rfl]
    exact (ih fuel _ j).trans (rule3Step_sameComplete ns es fuel σ e j)

lemma rule4Step_sameComplete (σ : StateMap) (n : SkillNode α) (j : Nat) :
    (rule4Step ns es σ n j = NodeState.complete ↔ σ j = NodeState.complete) := by
  unfold rule4Step
  by_cases hch : (childrenIds ns es n.id).isEmpty = true
  · rw [if_pos hch]
  · rw [if_neg hch]
    by_cases hall : (childrenIds ns es n.id).all
        (fun c => decide (σ c = NodeState.complete)) = true
    · rw [if_pos hall]
      by_cases hc : σ n.id = NodeState.complete
      · rw [if_neg (by simp [hc])]
      · rw [if_pos hc]
        by_cases hjn : j = n.id
        · subst hjn
          simp [updateState_self, hc]
        · simp [updateState_other σ n.id j NodeState.inProgress hjn]
    · rw [if_neg hall]
      by_cases hc : σ n.id = NodeState.complete
      · rw [if_neg (by simp [hc])]
      · rw [if_pos hc]
        by_cases hjn : j = n.id
        · subst hjn
          simp [updateState_self, hc]
        · simp [updateState_other σ n.id j NodeState.unavailable hjn]

lemma rule4Aux_sameComplete : ∀ (l : List (SkillNode α)) (σ : StateMap) (j : Nat),
    (rule4Aux ns es l σ j = NodeState.complete ↔ σ j = NodeState.complete) := by
  intro l
  induction l with
  | nil => intro σ j; exact Iff.rfl
  | cons n l ih =>
    intro σ j
    rw [show rule4Aux ns es (n :: l) σ =
      rule4Aux ns es l (rule4Step ns es σ n) from rfl]
    exact (ih _ j).trans (rule4Step_sameComplete ns es σ n j)

/-- The whole pass never destroys a `'complete'` state: every assignment in
rules 1-4 is guarded by a check that the node is not already complete. -/
lemma pass_preserves_complete (fuel : Nat) (σ : StateMap) (i : Nat)
    (h : σ i = NodeState.complete) :
    applyRulesFuel ns es tasks fuel σ i = NodeState.complete := by
  have h1 : rule1 ns es tasks σ i = NodeState.complete := by
    rw [rule1, rule1Aux_pointwise]
    split <;> simp [h]
  have h3 : rule3Fuel ns es fuel (rule1 ns es tasks σ) i = NodeState.complete :=
    (rule3Aux_sameComplete ns es es fuel _ i).mpr h1
  exact (rule4Aux_sameComplete ns es ns _ i).mpr h3

lemma list_all_ext {β : Type} (l : List β) (f g : β → Bool)
    (h : ∀ x, f x = g x) : l.all f = l.all g := by
  induction l with
  | nil => rfl
  | cons x l ih => simp [List.all_cons, h x, ih]

lemma realPairs_mem (pr : Nat × Nat) (h : pr ∈ realPairs ns es) :
    ∃ e ∈ es, e.efrom = some pr.1 ∧ e.eto = some pr.2 := by
  unfold realPairs at h
  rw [List.mem_filterMap] at h
  obtain ⟨e, he, hf⟩ := h
  rcases e with ⟨eid, ef, et⟩
  cases ef with
  | none => simp at hf
  | some f =>
    cases et with
    | none => simp at hf
    | some t =>
      simp only at hf
      split at hf
      · cases hf
        exact ⟨⟨eid, some f, some t⟩, he, rfl, rfl⟩
      · cases hf

lemma anc_target_hasConn (j : Nat) (h : isAncTarget ns es j = true) :
    hasAnyConnection es j = true := by
  unfold isAncTarget at h
  rw [List.any_eq_true] at h
  obtain ⟨pr, hpr, hj⟩ := h
  have hj2 : pr.2 = j := by simpa using hj
  obtain ⟨e, he, hf, ht⟩ := realPairs_mem ns es pr hpr
  rw [hasAnyConnection, List.any_eq_true]
  refine ⟨e, he, ?_⟩
  rw [ht, hj2]
  simp

lemma parentsIds_mem_target (p k : Nat) (h : p ∈ parentsIds ns es k) :
    isAncTarget ns es p = true := by
  unfold parentsIds at h
  rw [List.mem_map] at h
  obtain ⟨pr, hpr, hp⟩ := h
  rw [List.mem_filter] at hpr
  rw [isAncTarget, List.any_eq_true]
  exact ⟨pr, hpr.1, by rw [hp]; simp⟩

lemma childrenIds_mem_hasConn (c j : Nat) (h : c ∈ childrenIds ns es j) :
    hasAnyConnection es c = true ∧ hasAnyConnection es j = true := by
  unfold childrenIds at h
  rw [List.mem_map] at h
  obtain ⟨pr, hpr, hc⟩ := h
  rw [List.mem_filter] at hpr
  obtain ⟨e, he, hf, ht⟩ := realPairs_mem ns es pr hpr.1
  have hj : pr.2 = j := by
    have := hpr.2
    simpa using this
  constructor
  · rw [hasAnyConnection, List.any_eq_true]
    exact ⟨e, he, by rw [hf, ← hc]; simp⟩
  · rw [hasAnyConnection, List.any_eq_true]
    exact ⟨e, he, by rw [ht, hj]; simp⟩

lemma orphan_not_target (j : Nat) (hconn : hasAnyConnection es j = false) :
    isAncTarget ns es j = false := by
  cases h : isAncTarget ns es j with
  | false => rfl
  | true =>
    rw [anc_target_hasConn ns es j h] at hconn
    simp at hconn

lemma markAnc_untouched (j : Nat) (hj : isAncTarget ns es j = false) :
    ∀ fuel i (vis : List Nat) (σ : StateMap), i ≠ j →
      (markAncestorsUnavailable ns es fuel i vis σ).1 j = σ j := by
  intro fuel
  induction fuel with
  | zero => intro i vis σ hij; rfl
  | succ fuel ih =>
    have ihList : ∀ (ps : List Nat) (r : StateMap × List Nat),
        (∀ p ∈ ps, p ≠ j) → (markAncList ns es fuel ps r).1 j = r.1 j := by
      intro ps
      induction ps with
      | nil => intro r hp; rfl
      | cons p ps ihp =>
        intro r hp
        rw [markAncList_cons]
        rw [ihp _ (fun q hq => hp q (List.mem_cons_of_mem p hq))]
        exact ih p r.2 r.1 (hp p (List.mem_cons_self p ps))
    intro i vis σ hij
    rw [markAnc_succ]
    by_cases hv : i ∈ vis
    · rw [if_pos hv]
    · rw [if_neg hv]
      have hps : ∀ p ∈ parentsIds ns es i, p ≠ j := by
        intro p hp hpj
        have htg := parentsIds_mem_target ns es p i hp
        rw [hpj, hj] at htg
        simp at htg
      rw [ihList _ _ hps]
      by_cases hid : hasId ns i = true
      · rw [if_pos hid]
        by_cases hc : σ i ≠ NodeState.complete
        · rw [if_pos hc]
          exact updateState_other σ i j NodeState.unavailable (fun h => hij h.symm)
        · rw [if_neg hc]
      · rw [if_neg hid]

lemma rule3Step_untouched (j : Nat) (hconn : hasAnyConnection es j = false)
    (fuel : Nat) (σ : StateMap) (e : SkillEdge) (he : e ∈ es) :
    rule3Step ns es fuel σ e j = σ j := by
  rcases e with ⟨eid, ef, et⟩
  cases ef with
  | none => rfl
  | some f =>
    cases et with
    | none => rfl
    | some t =>
      have hfj : f ≠ j := by
        intro hfj
        subst hfj
        have hcf : hasAnyConnection es f = true := by
          rw [hasAnyConnection, List.any_eq_true]
          exact ⟨_, he, by simp⟩
        rw [hcf] at hconn
        simp at hconn
      have htj : t ≠ j := by
        intro htj
        subst htj
        have hct : hasAnyConnection es t = true := by
          rw [hasAnyConnection, List.any_eq_true]
          exact ⟨_, he, by simp⟩
        rw [hct] at hconn
        simp at hconn
      have hσ1 : (if hasId ns f && decide (σ f ≠ NodeState.complete) then
          updateState σ f NodeState.inProgress else σ) j = σ j := by
        split
        · exact updateState_other σ f j NodeState.inProgress (Ne.symm hfj)
        · rfl
      unfold rule3Step
      dsimp only
      by_cases hid : hasId ns t = true
      · rw [if_pos hid]
        rw [markAnc_untouched ns es j (orphan_not_target ns es j hconn) fuel t [] _
          htj]
        exact hσ1
      · rw [if_neg hid]
        exact hσ1

lemma rule3Aux_untouched (j : Nat) (hconn : hasAnyConnection es j = false) :
    ∀ (l : List SkillEdge) (fuel : Nat) (σ : StateMap), (∀ e ∈ l, e ∈ es) →
      rule3Aux ns es fuel l σ j = σ j := by
  intro l
  induction l with
  | nil =>
    intro fuel σ h
    rfl
  | cons e l ih =>
    intro fuel σ h
    rw [show rule3Aux ns es fuel (e :: l) σ =
      rule3Aux ns es fuel l (rule3Step ns es fuel σ e) from rfl]
    rw [ih fuel _ (fun x hx => h x (List.mem_cons_of_mem e hx))]
    exact rule3Step_untouched ns es j hconn fuel σ e (h e (List.mem_cons_self e l))

lemma rule4Step_other (σ : StateMap) (n : SkillNode α) (j : Nat) (h : j ≠ n.id) :
    rule4Step ns es σ n j = σ j := by
  unfold rule4Step
  split
  · rfl
  · split
    · split
      · exact updateState_other σ n.id j NodeState.inProgress h
      · rfl
    · split
      · exact updateState_other σ n.id j NodeState.unavailable h
      · rfl

lemma rule4Aux_untouched (j : Nat) (hch : (childrenIds ns es j).isEmpty = true) :
    ∀ (l : List (SkillNode α)) (σ : StateMap), rule4Aux ns es l σ j = σ j := by
  intro l
  induction l with
  | nil =>
    intro σ
    rfl
  | cons n l ih =>
    intro σ
    rw [show rule4Aux ns es (n :: l) σ = rule4Aux ns es l (rule4Step ns es σ n)
      from rfl, ih]
    by_cases hnj : n.id = j
    · unfold rule4Step
      rw [hnj, if_pos hch]
    · exact rule4Step_other ns es σ n j (fun h => hnj h.symm)

lemma rule4Aux_pointwise : ∀ (l : List (SkillNode α)) (σ : StateMap) (i : Nat),
    rule4Aux ns es l σ i =
      if l.any (fun m => decide (m.id = i)) && !(childrenIds ns es i).isEmpty then
        (if (childrenIds ns es i).all (fun c => decide (σ c = NodeState.complete)) then
          (if σ i = NodeState.complete then NodeState.complete
           else NodeState.inProgress)
         else
          (if σ i = NodeState.complete then NodeState.complete
           else NodeState.unavailable))
      else σ i := by
  intro l
  induction l with
  | nil =>
    intro σ i
    simp [rule4Aux]
  | cons n l ih =>
    intro σ i
    rw [show rule4Aux ns es (n :: l) σ = rule4Aux ns es l (rule4Step ns es σ n)
      from rfl, ih]
    by_cases hni : n.id = i
    · subst hni
      by_cases hch : (childrenIds ns es n.id).isEmpty = true
      · have hstep : rule4Step ns es σ n = σ := by
          unfold rule4Step
          rw [if_pos hch]
        rw [hstep]
        simp [hch]
      · by_cases hc : σ n.id = NodeState.complete
        · have hstep : rule4Step ns es σ n = σ := by
            unfold rule4Step
            rw [if_neg hch]
            split
            · rw [if_neg (by simp [hc])]
            · rw [if_neg (by simp [hc])]
          rw [hstep]
          simp [hch, hc]
        · by_cases hall : ((childrenIds ns es n.id).all
              (fun c => decide (σ c = NodeState.complete))) = true
          · have hstep : rule4Step ns es σ n =
                updateState σ n.id NodeState.inProgress := by
              unfold rule4Step
              rw [if_neg hch, if_pos hall, if_pos hc]
            rw [hstep]
            have hallu : ((childrenIds ns es n.id).all (fun c =>
                decide ((updateState σ n.id NodeState.inProgress) c =
                  NodeState.complete))) =
                ((childrenIds ns es n.id).all
                  (fun c => decide (σ c = NodeState.complete))) :=
              list_all_ext _ _ _ (fun c => decide_eq_decide.mpr (by
                by_cases hcn : c = n.id
                · subst hcn
                  simp [updateState_self, hc]
                · simp [updateState_other σ n.id c _ hcn]))
            rw [hallu]
            simp [hch, hc, hall, updateState_self]
          · have hstep : rule4Step ns es σ n =
                updateState σ n.id NodeState.unavailable := by
              unfold rule4Step
              rw [if_neg hch, if_neg hall, if_pos hc]
            rw [hstep]
            have hallu : ((childrenIds ns es n.id).all (fun c =>
                decide ((updateState σ n.id NodeState.unavailable) c =
                  NodeState.complete))) =
                ((childrenIds ns es n.id).all
                  (fun c => decide (σ c = NodeState.complete))) :=
              list_all_ext _ _ _ (fun c => decide_eq_decide.mpr (by
                by_cases hcn : c = n.id
                · subst hcn
                  simp [updateState_self, hc]
                · simp [updateState_other σ n.id c _ hcn]))
            rw [hallu]
            simp [hch, hc, hall, updateState_self]
    · have hstep : rule4Step ns es σ n i = σ i :=
        rule4Step_other ns es σ n i (fun h => hni h.symm)
      have hany : ((n :: l).any (fun m => decide (m.id = i))) =
          (l.any (fun m => decide (m.id = i))) := by
        simp [List.any_cons, hni]
      have hallc : ((childrenIds ns es i).all (fun c =>
          decide (rule4Step ns es σ n c = NodeState.complete))) =
          ((childrenIds ns es i).all
            (fun c => decide (σ c = NodeState.complete))) :=
        list_all_ext _ _ _
          (fun c => decide_eq_decide.mpr (rule4Step_sameComplete ns es σ n c))
      rw [hany, hallc, hstep]

lemma rule1_untouched_conn (σ : StateMap) (i : Nat)
    (hconn : hasAnyConnection es i = true) : rule1 ns es tasks σ i = σ i := by
  rw [rule1, rule1Aux_pointwise]
  simp [hconn]

end PropagationLemmas

/-! ## Complete preservation and child promotion theorems (C10, C6). -/

/-- C10: every node whose state is `'complete'` before a run of
`applyConnectionStateRules` is still `'complete'` after the run — the orphan
rule, the ancestor marking and the child promotion/demotion rules all guard
their assignments so that an existing complete state is preserved. -/
theorem complete_never_demoted {α : Type} (ns : List (SkillNode α))
    (es : List SkillEdge) (tasks : TaskMap) (σ : StateMap) (i : Nat)
    (h : σ i = NodeState.complete) :
    applyConnectionStateRules ns es tasks σ i = NodeState.complete :=
  pass_preserves_complete ns es tasks (ns.length + 1) σ i h

theorem complete_never_demoted_witness :
    statesOf completeSampleNodes 1 = NodeState.complete ∧
    applyConnectionStateRules completeSampleNodes [] (fun _ => [])
      (statesOf completeSampleNodes) 1 = NodeState.complete :=
  ⟨rfl, complete_never_demoted completeSampleNodes [] (fun _ => [])
    (statesOf completeSampleNodes) 1 rfl⟩

/-- C6: after a run of the pass, a node with at least one child is
in-progress when all of its children were complete (unless itself already
complete), and unavailable when some child was not complete (unless itself
already complete).  Children are connected nodes, so their complete status is
unchanged during the pass and the hypothesis can be read before or after the
run interchangeably. -/
theorem all_children_complete_promotion {α : Type} (ns : List (SkillNode α))
    (es : List SkillEdge) (tasks : TaskMap) (σ : StateMap) (P : SkillNode α)
    (hmem : P ∈ ns) (hch : childrenIds ns es P.id ≠ []) :
    ((∀ c ∈ childrenIds ns es P.id, σ c = NodeState.complete) →
      applyConnectionStateRules ns es tasks σ P.id =
        (if σ P.id = NodeState.complete then NodeState.complete
         else NodeState.inProgress)) ∧
    ((∃ c ∈ childrenIds ns es P.id, σ c ≠ NodeState.complete) →
      applyConnectionStateRules ns es tasks σ P.id =
        (if σ P.id = NodeState.complete then NodeState.complete
         else NodeState.unavailable)) := by
  obtain ⟨c0, hc0⟩ : ∃ c, c ∈ childrenIds ns es P.id := by
    cases hcs : childrenIds ns es P.id with
    | nil => exact absurd hcs hch
    | cons a t => exact ⟨a, by simp [hcs]⟩
  have hconnP : hasAnyConnection es P.id = true :=
    (childrenIds_mem_hasConn ns es c0 P.id hc0).2
  have htrans : ∀ j, hasAnyConnection es j = true →
      ((rule3 ns es (rule1 ns es tasks σ)) j = NodeState.complete ↔
        σ j = NodeState.complete) := by
    intro j hj
    refine (rule3Aux_sameComplete ns es es _ _ j).trans ?_
    rw [rule1_untouched_conn ns es tasks σ j hj]
  have hchst : ∀ c ∈ childrenIds ns es P.id,
      ((rule3 ns es (rule1 ns es tasks σ)) c = NodeState.complete ↔
        σ c = NodeState.complete) :=
    fun c hc => htrans c (childrenIds_mem_hasConn ns es c P.id hc).1
  have hPst := htrans P.id hconnP
  have hid : ns.any (fun m => decide (m.id = P.id)) = true := by
    rw [List.any_eq_true]
    exact ⟨P, hmem, by simp⟩
  have hne : ((childrenIds ns es P.id).isEmpty) = false := by
    cases h : (childrenIds ns es P.id).isEmpty with
    | false => rfl
    | true => exact absurd (List.isEmpty_iff.mp h) hch
  constructor
  · intro hAll
    have hallb : (childrenIds ns es P.id).all (fun c =>
        decide ((rule3 ns es (rule1 ns es tasks σ)) c = NodeState.complete)) =
          true := by
      rw [List.all_eq_true]
      intro c hc
      exact decide_eq_true ((hchst c hc).mpr (hAll c hc))
    show rule4 ns es (rule3 ns es (rule1 ns es tasks σ)) P.id = _
    rw [rule4, rule4Aux_pointwise]
    by_cases hc : σ P.id = NodeState.complete
    · have hq := hPst.mpr hc
      simp [hid, hne, hallb, hq, hc]
    · have hq : ¬ (rule3 ns es (rule1 ns es tasks σ)) P.id = NodeState.complete :=
        fun hx => hc (hPst.mp hx)
      simp [hid, hne, hallb, hq, hc]
  · rintro ⟨c, hcmem, hcnc⟩
    have hallb : (childrenIds ns es P.id).all (fun c =>
        decide ((rule3 ns es (rule1 ns es tasks σ)) c = NodeState.complete)) =
          false := by
      cases h : (childrenIds ns es P.id).all (fun c =>
          decide ((rule3 ns es (rule1 ns es tasks σ)) c = NodeState.complete)) with
      | false => rfl
      | true =>
        rw [List.all_eq_true] at h
        exact absurd ((hchst c hcmem).mp (of_decide_eq_true (h c hcmem))) hcnc
    show rule4 ns es (rule3 ns es (rule1 ns es tasks σ)) P.id = _
    rw [rule4, rule4Aux_pointwise]
    by_cases hc : σ P.id = NodeState.complete
    · have hq := hPst.mpr hc
      simp [hid, hne, hallb, hq, hc]
    · have hq : ¬ (rule3 ns es (rule1 ns es tasks σ)) P.id = NodeState.complete :=
        fun hx => hc (hPst.mp hx)
      simp [hid, hne, hallb, hq, hc]

theorem all_children_complete_promotion_witness :
    promoParent ∈ promoNodes ∧
    childrenIds promoNodes promoEdges promoParent.id ≠ [] ∧
    applyConnectionStateRules promoNodes promoEdges (fun _ => [])
      (statesOf promoNodes) promoParent.id = NodeState.inProgress := by
  refine ⟨by decide, by decide, ?_⟩
  have h := (all_children_complete_promotion promoNodes promoEdges (fun _ => [])
    (statesOf promoNodes) promoParent (by decide) (by decide)).1 (by decide)
  rw [h]
  decide

/-! ## Termination of the ancestor marking (C3).

The TypeScript recursion carries no fuel; its termination argument is that
every recursive step either hits the visited set or adds a node id to it, so
the recursion depth is bounded by the number of distinct node ids.  In the
embedding this becomes: the computation is unchanged by any fuel beyond
`ns.length + 1`, and the visited set never acquires duplicates. -/

section TerminationLemmas

variable {α : Type} (ns : List (SkillNode α)) (es : List SkillEdge)

lemma hasId_mem_map (i : Nat) (h : hasId ns i = true) :
    i ∈ ns.map (fun n => n.id) := by
  rw [hasId, List.any_eq_true] at h
  obtain ⟨n, hn, hni⟩ := h
  exact List.mem_map.mpr ⟨n, hn, of_decide_eq_true hni⟩

lemma realPairs_hasId (pr : Nat × Nat) (h : pr ∈ realPairs ns es) :
    hasId ns pr.1 = true ∧ hasId ns pr.2 = true := by
  unfold realPairs at h
  rw [List.mem_filterMap] at h
  obtain ⟨e, he, hf⟩ := h
  rcases e with ⟨eid, ef, et⟩
  cases ef with
  | none => simp at hf
  | some f =>
    cases et with
    | none => simp at hf
    | some t =>
      simp only at hf
      split at hf
      · rename_i hb
        cases hf
        exact (Bool.and_eq_true _ _).mp hb
      · cases hf

lemma parentsIds_mem_map (p k : Nat) (h : p ∈ parentsIds ns es k) :
    p ∈ ns.map (fun n => n.id) := by
  unfold parentsIds at h
  rw [List.mem_map] at h
  obtain ⟨pr, hpr, hp⟩ := h
  rw [List.mem_filter] at hpr
  have hh := (realPairs_hasId ns es pr hpr.1).2
  rw [hp] at hh
  exact hasId_mem_map ns p hh

lemma unseenCount_mono (vis vis2 : List Nat) (h : vis ⊆ vis2) :
    unseenCount ns vis2 ≤ unseenCount ns vis := by
  apply Finset.card_le_card
  intro x hx
  rw [Finset.mem_filter] at hx ⊢
  exact ⟨hx.1, fun hxv => hx.2 (h hxv)⟩

lemma unseenCount_lt (i : Nat) (vis : List Nat)
    (hmem : i ∈ ns.map (fun n => n.id)) (hvi : i ∉ vis) :
    unseenCount ns (i :: vis) < unseenCount ns vis := by
  have heq : ((ns.map (fun n => n.id)).toFinset.filter (fun x => x ∉ i :: vis)) =
      ((ns.map (fun n => n.id)).toFinset.filter (fun x => x ∉ vis)).erase i := by
    ext x
    simp only [Finset.mem_filter, Finset.mem_erase, List.mem_cons]
    constructor
    · rintro ⟨hx, hnot⟩
      exact ⟨fun hxi => hnot (Or.inl hxi), hx, fun hxv => hnot (Or.inr hxv)⟩
    · rintro ⟨hxi, hx, hxv⟩
      exact ⟨hx, fun hor => hor.elim hxi hxv⟩
  have hin : i ∈ ((ns.map (fun n => n.id)).toFinset.filter (fun x => x ∉ vis)) := by
    rw [Finset.mem_filter]
    exact ⟨List.mem_toFinset.mpr hmem, hvi⟩
  unfold unseenCount
  rw [heq, Finset.card_erase_of_mem hin]
  have hpos : 0 < ((ns.map (fun n => n.id)).toFinset.filter
      (fun x => x ∉ vis)).card := Finset.card_pos.mpr ⟨i, hin⟩
  omega

lemma markAnc_vis_mono : ∀ fuel i (vis : List Nat) (σ : StateMap),
    vis ⊆ (markAncestorsUnavailable ns es fuel i vis σ).2 := by
  intro fuel
  induction fuel with
  | zero => intro i vis σ; exact fun a ha => ha
  | succ fuel ih =>
    have ihList : ∀ (ps : List Nat) (r : StateMap × List Nat),
        r.2 ⊆ (markAncList ns es fuel ps r).2 := by
      intro ps
      induction ps with
      | nil => intro r; exact fun a ha => ha
      | cons p ps ihp =>
        intro r
        rw [markAncList_cons]
        exact fun a ha => ihp _ (ih p r.2 r.1 ha)
    intro i vis σ
    rw [markAnc_succ]
    by_cases hv : i ∈ vis
    · rw [if_pos hv]
      exact fun a ha => ha
    · rw [if_neg hv]
      exact fun a ha => ihList _ _ (List.mem_cons_of_mem i ha)

lemma markAnc_vis_nodup : ∀ fuel i (vis : List Nat) (σ : StateMap),
    vis.Nodup → ((markAncestorsUnavailable ns es fuel i vis σ).2).Nodup := by
  intro fuel
  induction fuel with
  | zero => intro i vis σ h; exact h
  | succ fuel ih =>
    have ihList : ∀ (ps : List Nat) (r : StateMap × List Nat),
        r.2.Nodup → ((markAncList ns es fuel ps r).2).Nodup := by
      intro ps
      induction ps with
      | nil => intro r h; exact h
      | cons p ps ihp =>
        intro r h
        rw [markAncList_cons]
        exact ihp _ (ih p r.2 r.1 h)
    intro i vis σ h
    rw [markAnc_succ]
    by_cases hv : i ∈ vis
    · rw [if_pos hv]
      exact h
    · rw [if_neg hv]
      exact ihList _ _ (List.nodup_cons.mpr ⟨hv, h⟩)

lemma markAnc_fuel_step : ∀ fuel,
    (∀ i (vis : List Nat) (σ : StateMap),
      (i ∈ ns.map (fun n => n.id) ∨ i ∈ vis) → unseenCount ns vis + 1 ≤ fuel →
      markAncestorsUnavailable ns es (fuel + 1) i vis σ =
        markAncestorsUnavailable ns es fuel i vis σ) ∧
    (∀ (ps : List Nat) (r : StateMap × List Nat),
      (∀ p ∈ ps, p ∈ ns.map (fun n => n.id)) → unseenCount ns r.2 + 1 ≤ fuel →
      markAncList ns es (fuel + 1) ps r = markAncList ns es fuel ps r) := by
  intro fuel
  induction fuel using Nat.strong_induction_on with
  | _ fuel ih =>
    have hAnc : ∀ i (vis : List Nat) (σ : StateMap),
        (i ∈ ns.map (fun n => n.id) ∨ i ∈ vis) → unseenCount ns vis + 1 ≤ fuel →
        markAncestorsUnavailable ns es (fuel + 1) i vis σ =
          markAncestorsUnavailable ns es fuel i vis σ := by
      intro i vis σ hi hfuel
      obtain ⟨f, rfl⟩ : ∃ f, fuel = f + 1 := ⟨fuel - 1, by omega⟩
      by_cases hv : i ∈ vis
      · rw [markAnc_succ, markAnc_succ, if_pos hv, if_pos hv]
      · have himem : i ∈ ns.map (fun n => n.id) := hi.resolve_right hv
        rw [markAnc_succ, markAnc_succ, if_neg hv, if_neg hv]
        have hlt := unseenCount_lt ns i vis himem hv
        refine (ih f (by omega)).2 (parentsIds ns es i) _ ?_ ?_
        · intro p hp
          exact parentsIds_mem_map ns es p i hp
        · show unseenCount ns (i :: vis) + 1 ≤ f
          omega
    have hList : ∀ (ps : List Nat) (r : StateMap × List Nat),
        (∀ p ∈ ps, p ∈ ns.map (fun n => n.id)) → unseenCount ns r.2 + 1 ≤ fuel →
        markAncList ns es (fuel + 1) ps r = markAncList ns es fuel ps r := by
      intro ps
      induction ps with
      | nil => intro r hp hfuel; rfl
      | cons p ps ihp =>
        intro r hp hfuel
        rw [markAncList_cons, markAncList_cons]
        rw [hAnc p r.2 r.1 (Or.inl (hp p (List.mem_cons_self p ps))) hfuel]
        apply ihp _ (fun q hq => hp q (List.mem_cons_of_mem p hq))
        have hsub := markAnc_vis_mono ns es fuel p r.2 r.1
        have := unseenCount_mono ns r.2 _ hsub
        omega
    exact ⟨hAnc, hList⟩

lemma markAnc_fuel_ge (i : Nat) (vis : List Nat) (σ : StateMap)
    (f1 f2 : Nat) (hi : i ∈ ns.map (fun n => n.id) ∨ i ∈ vis)
    (hb : unseenCount ns vis + 1 ≤ f1) (hle : f1 ≤ f2) :
    markAncestorsUnavailable ns es f2 i vis σ =
      markAncestorsUnavailable ns es f1 i vis σ := by
  obtain ⟨k, rfl⟩ : ∃ k, f2 = f1 + k := ⟨f2 - f1, by omega⟩
  clear hle
  induction k with
  | zero => rfl
  | succ k ihk =>
    rw [show f1 + (k + 1) = (f1 + k) + 1 from rfl]
    rw [(markAnc_fuel_step ns es (f1 + k)).1 i vis σ hi (by omega)]
    exact ihk

lemma unseenCount_nil_le : unseenCount ns [] ≤ ns.length := by
  unfold unseenCount
  calc ((ns.map (fun n => n.id)).toFinset.filter (fun i => i ∉ ([] : List Nat))).card
      ≤ (ns.map (fun n => n.id)).toFinset.card :=
        Finset.card_le_card (Finset.filter_subset _ _)
    _ ≤ (ns.map (fun n => n.id)).length := List.toFinset_card_le _
    _ = ns.length := List.length_map _ _

lemma rule3Step_fuel_stable (σ : StateMap) (e : SkillEdge) (fuel : Nat)
    (hfuel : ns.length + 1 ≤ fuel) :
    rule3Step ns es fuel σ e = rule3Step ns es (ns.length + 1) σ e := by
  rcases e with ⟨eid, ef, et⟩
  cases ef with
  | none => rfl
  | some f =>
    cases et with
    | none => rfl
    | some t =>
      unfold rule3Step
      dsimp only
      by_cases hid : hasId ns t = true
      · rw [if_pos hid, if_pos hid]
        rw [markAnc_fuel_ge ns es t [] _ (ns.length + 1) fuel
          (Or.inl (hasId_mem_map ns t hid))
          (by have hb := unseenCount_nil_le ns; omega) hfuel]
      · rw [if_neg hid, if_neg hid]

lemma rule3Aux_fuel_stable : ∀ (l : List SkillEdge) (σ : StateMap) (fuel : Nat),
    ns.length + 1 ≤ fuel →
    rule3Aux ns es fuel l σ = rule3Aux ns es (ns.length + 1) l σ := by
  intro l
  induction l with
  | nil => intro σ fuel hfuel; rfl
  | cons e l ih =>
    intro σ fuel hfuel
    rw [show rule3Aux ns es fuel (e :: l) σ =
      rule3Aux ns es fuel l (rule3Step ns es fuel σ e) from rfl,
      show rule3Aux ns es (ns.length + 1) (e :: l) σ =
      rule3Aux ns es (ns.length + 1) l (rule3Step ns es (ns.length + 1) σ e)
      from rfl]
    rw [rule3Step_fuel_stable ns es σ e fuel hfuel, ih _ fuel hfuel]

end TerminationLemmas

/-- C3: the pass terminates on every edge set, cycles included — the
computation is stable in the recursion-depth bound: any fuel at least
`ns.length + 1` computes exactly what the canonical pass computes, because
the visited set cuts every ancestor-marking traversal after each node id has
been entered at most once; and the visited set indeed never acquires
duplicates. -/
theorem propagation_no_cycle_hang {α : Type} (ns : List (SkillNode α))
    (es : List SkillEdge) (tasks : TaskMap) (σ : StateMap) (fuel : Nat)
    (hfuel : ns.length + 1 ≤ fuel) :
    applyRulesFuel ns es tasks fuel σ = applyConnectionStateRules ns es tasks σ ∧
    (∀ (fuel2 i : Nat) (vis : List Nat) (σ2 : StateMap), vis.Nodup →
      ((markAncestorsUnavailable ns es fuel2 i vis σ2).2).Nodup) := by
  constructor
  · show rule4 ns es (rule3Fuel ns es fuel (rule1 ns es tasks σ)) = _
    rw [rule3Fuel, rule3Aux_fuel_stable ns es es _ fuel hfuel]
    rfl
  · intro fuel2 i vis σ2 h
    exact markAnc_vis_nodup ns es fuel2 i vis σ2 h

theorem propagation_no_cycle_hang_witness :
    cycleNodes.length + 1 ≤ 9 ∧
    (applyRulesFuel cycleNodes cycleEdges (fun _ => []) 9 (statesOf cycleNodes) =
      applyConnectionStateRules cycleNodes cycleEdges (fun _ => [])
        (statesOf cycleNodes) ∧
    (∀ (fuel2 i : Nat) (vis : List Nat) (σ2 : StateMap), vis.Nodup →
      ((markAncestorsUnavailable cycleNodes cycleEdges fuel2 i vis σ2).2).Nodup)) :=
  ⟨by decide, propagation_no_cycle_hang cycleNodes cycleEdges (fun _ => [])
    (statesOf cycleNodes) 9 (by decide)⟩

/-! ## Idempotence of the pass (C1).

The second run of the pass is compared with the first through a simulation
relation `R`: at every id the two threaded states are either equal or the
pair (first-run output, first-run input) with agreeing complete status.  All
branch conditions of rules 3 and 4 depend on the threaded states only
through their complete status, so the two runs take the same branches and
write the same values; rule 1 is handled by its pointwise characterisation. -/

section IdempotenceLemmas

variable {α : Type} (ns : List (SkillNode α)) (es : List SkillEdge)
variable (R : Nat → NodeState → NodeState → Prop)

lemma markAnc_congr (hR1 : ∀ i v, R i v v)
    (hR2 : ∀ i u v, R i u v → (u = NodeState.complete ↔ v = NodeState.complete)) :
    ∀ fuel i (vis : List Nat) (σa σb : StateMap), (∀ j, R j (σa j) (σb j)) →
      (markAncestorsUnavailable ns es fuel i vis σa).2 =
        (markAncestorsUnavailable ns es fuel i vis σb).2 ∧
      ∀ j, R j ((markAncestorsUnavailable ns es fuel i vis σa).1 j)
        ((markAncestorsUnavailable ns es fuel i vis σb).1 j) := by
  intro fuel
  induction fuel with
  | zero => intro i vis σa σb h; exact ⟨rfl, h⟩
  | succ fuel ih =>
    have ihList : ∀ (ps : List Nat) (ra rb : StateMap × List Nat),
        ra.2 = rb.2 → (∀ j, R j (ra.1 j) (rb.1 j)) →
        (markAncList ns es fuel ps ra).2 = (markAncList ns es fuel ps rb).2 ∧
        ∀ j, R j ((markAncList ns es fuel ps ra).1 j)
          ((markAncList ns es fuel ps rb).1 j) := by
      intro ps
      induction ps with
      | nil => intro ra rb hv h; exact ⟨hv, h⟩
      | cons p ps ihp =>
        intro ra rb hv h
        rw [markAncList_cons, markAncList_cons, ← hv]
        have hstep := ih p ra.2 ra.1 rb.1 h
        exact ihp _ _ hstep.1 hstep.2
    intro i vis σa σb h
    rw [markAnc_succ, markAnc_succ]
    by_cases hv : i ∈ vis
    · rw [if_pos hv, if_pos hv]
      exact ⟨rfl, h⟩
    · rw [if_neg hv, if_neg hv]
      apply ihList
      · rfl
      · intro j
        dsimp only
        by_cases hid : hasId ns i = true
        · rw [if_pos hid, if_pos hid]
          have hiff := hR2 i _ _ (h i)
          by_cases hc : σa i = NodeState.complete
          · rw [if_neg (by simp [hc]), if_neg (by simp [hiff.mp hc])]
            exact h j
          · have hcb : ¬ σb i = NodeState.complete := fun hx => hc (hiff.mpr hx)
            rw [if_pos hc, if_pos hcb]
            by_cases hji : j = i
            · subst hji
              rw [updateState_self, updateState_self]
              exact hR1 j _
            · rw [updateState_other _ _ _ _ hji, updateState_other _ _ _ _ hji]
              exact h j
        · rw [if_neg hid, if_neg hid]
          exact h j

lemma rule3Step_congr (hR1 : ∀ i v, R i v v)
    (hR2 : ∀ i u v, R i u v → (u = NodeState.complete ↔ v = NodeState.complete))
    (fuel : Nat) (σa σb : StateMap) (e : SkillEdge)
    (h : ∀ j, R j (σa j) (σb j)) :
    ∀ j, R j (rule3Step ns es fuel σa e j) (rule3Step ns es fuel σb e j) := by
  rcases e with ⟨eid, ef, et⟩
  cases ef with
  | none => exact h
  | some f =>
    cases et with
    | none => exact h
    | some t =>
      have hdec : decide (σa f ≠ NodeState.complete) =
          decide (σb f ≠ NodeState.complete) :=
        decide_eq_decide.mpr (not_congr (hR2 f _ _ (h f)))
      have hσ1 : ∀ j, R j
          ((if hasId ns f && decide (σa f ≠ NodeState.complete) then
            updateState σa f NodeState.inProgress else σa) j)
          ((if hasId ns f && decide (σb f ≠ NodeState.complete) then
            updateState σb f NodeState.inProgress else σb) j) := by
        intro j
        by_cases hb : (hasId ns f && decide (σa f ≠ NodeState.complete)) = true
        · rw [if_pos hb, if_pos (by rw [← hdec]; exact hb)]
          by_cases hjf : j = f
          · subst hjf
            rw [updateState_self, updateState_self]
            exact hR1 j _
          · rw [updateState_other _ _ _ _ hjf, updateState_other _ _ _ _ hjf]
            exact h j
        · rw [if_neg hb, if_neg (by rw [← hdec]; exact hb)]
          exact h j
      unfold rule3Step
      dsimp only
      by_cases hid : hasId ns t = true
      · rw [if_pos hid, if_pos hid]
        exact (markAnc_congr ns es R hR1 hR2 fuel t [] _ _ hσ1).2
      · rw [if_neg hid, if_neg hid]
        exact hσ1

lemma rule3Aux_congr (hR1 : ∀ i v, R i v v)
    (hR2 : ∀ i u v, R i u v → (u = NodeState.complete ↔ v = NodeState.complete)) :
    ∀ (l : List SkillEdge) (fuel : Nat) (σa σb : StateMap),
      (∀ j, R j (σa j) (σb j)) →
      ∀ j, R j (rule3Aux ns es fuel l σa j) (rule3Aux ns es fuel l σb j) := by
  intro l
  induction l with
  | nil => intro fuel σa σb h; exact h
  | cons e l ih =>
    intro fuel σa σb h
    rw [show rule3Aux ns es fuel (e :: l) σa =
      rule3Aux ns es fuel l (rule3Step ns es fuel σa e) from rfl,
      show rule3Aux ns es fuel (e :: l) σb =
      rule3Aux ns es fuel l (rule3Step ns es fuel σb e) from rfl]
    exact ih fuel _ _ (rule3Step_congr ns es R hR1 hR2 fuel σa σb e h)

lemma rule4Step_congr (hR1 : ∀ i v, R i v v)
    (hR2 : ∀ i u v, R i u v → (u = NodeState.complete ↔ v = NodeState.complete))
    (σa σb : StateMap) (n : SkillNode α) (h : ∀ j, R j (σa j) (σb j)) :
    ∀ j, R j (rule4Step ns es σa n j) (rule4Step ns es σb n j) := by
  intro j
  unfold rule4Step
  by_cases hch : (childrenIds ns es n.id).isEmpty = true
  · rw [if_pos hch, if_pos hch]
    exact h j
  · rw [if_neg hch, if_neg hch]
    have hall : ((childrenIds ns es n.id).all
        (fun c => decide (σa c = NodeState.complete))) =
        ((childrenIds ns es n.id).all
          (fun c => decide (σb c = NodeState.complete))) :=
      list_all_ext _ _ _ (fun c => decide_eq_decide.mpr (hR2 c _ _ (h c)))
    have hiff := hR2 n.id _ _ (h n.id)
    by_cases hb : ((childrenIds ns es n.id).all
        (fun c => decide (σa c = NodeState.complete))) = true
    · have hbb : ((childrenIds ns es n.id).all
          (fun c => decide (σb c = NodeState.complete))) = true := by
        rw [← hall]
        exact hb
      rw [if_pos hb, if_pos hbb]
      by_cases hc : σa n.id = NodeState.complete
      · have hnc : ¬ σa n.id ≠ NodeState.complete := by simp [hc]
        have hncb : ¬ σb n.id ≠ NodeState.complete := by simp [hiff.mp hc]
        rw [if_neg hnc, if_neg hncb]
        exact h j
      · have hcb : ¬ σb n.id = NodeState.complete := fun hx => hc (hiff.mpr hx)
        rw [if_pos hc, if_pos hcb]
        by_cases hjn : j = n.id
        · subst hjn
          rw [updateState_self, updateState_self]
          exact hR1 _ _
        · rw [updateState_other _ _ _ _ hjn, updateState_other _ _ _ _ hjn]
          exact h j
    · have hbb : ¬ ((childrenIds ns es n.id).all
          (fun c => decide (σb c = NodeState.complete))) = true := by
        rw [← hall]
        exact hb
      rw [if_neg hb, if_neg hbb]
      by_cases hc : σa n.id = NodeState.complete
      · have hnc : ¬ σa n.id ≠ NodeState.complete := by simp [hc]
        have hncb : ¬ σb n.id ≠ NodeState.complete := by simp [hiff.mp hc]
        rw [if_neg hnc, if_neg hncb]
        exact h j
      · have hcb : ¬ σb n.id = NodeState.complete := fun hx => hc (hiff.mpr hx)
        rw [if_pos hc, if_pos hcb]
        by_cases hjn : j = n.id
        · subst hjn
          rw [updateState_self, updateState_self]
          exact hR1 _ _
        · rw [updateState_other _ _ _ _ hjn, updateState_other _ _ _ _ hjn]
          exact h j

lemma rule4Aux_congr (hR1 : ∀ i v, R i v v)
    (hR2 : ∀ i u v, R i u v → (u = NodeState.complete ↔ v = NodeState.complete)) :
    ∀ (l : List (SkillNode α)) (σa σb : StateMap), (∀ j, R j (σa j) (σb j)) →
      ∀ j, R j (rule4Aux ns es l σa j) (rule4Aux ns es l σb j) := by
  intro l
  induction l with
  | nil => intro σa σb h; exact h
  | cons n l ih =>
    intro σa σb h
    rw [show rule4Aux ns es (n :: l) σa =
      rule4Aux ns es l (rule4Step ns es σa n) from rfl,
      show rule4Aux ns es (n :: l) σb =
      rule4Aux ns es l (rule4Step ns es σb n) from rfl]
    exact ih _ _ (rule4Step_congr ns es R hR1 hR2 σa σb n h)

end IdempotenceLemmas

/-- C1: the state-propagation pass is idempotent — for every node list, edge
list, cached task map and state assignment, running
`applyConnectionStateRules` twice in a row yields exactly the same states as
running it once (one pass reaches a fixed point). -/
theorem propagation_idempotent {α : Type} (ns : List (SkillNode α))
    (es : List SkillEdge) (tasks : TaskMap) (σ : StateMap) :
    applyConnectionStateRules ns es tasks (applyConnectionStateRules ns es tasks σ) =
      applyConnectionStateRules ns es tasks σ := by
  set σf := applyConnectionStateRules ns es tasks σ with hσf
  let R : Nat → NodeState → NodeState → Prop := fun i u v =>
    u = v ∨ (u = σf i ∧ v = σ i ∧
      (σf i = NodeState.complete ↔ σ i = NodeState.complete))
  have hR1 : ∀ i v, R i v v := fun i v => Or.inl rfl
  have hR2 : ∀ i u v, R i u v →
      (u = NodeState.complete ↔ v = NodeState.complete) := by
    intro i u v h
    rcases h with h | ⟨h1, h2, h3⟩
    · rw [h]
    · rw [h1, h2]
      exact h3
  have hstat : ∀ i, (σf i = NodeState.complete ↔
      rule1 ns es tasks σ i = NodeState.complete) := by
    intro i
    rw [hσf]
    exact (rule4Aux_sameComplete ns es ns _ i).trans
      (rule3Aux_sameComplete ns es es _ _ i)
  have hpair : ∀ i, R i (rule1 ns es tasks σf i) (rule1 ns es tasks σ i) := by
    intro i
    rw [rule1, rule1, rule1Aux_pointwise, rule1Aux_pointwise]
    by_cases hcond : (ns.any (fun m => decide (m.id = i)) &&
        (!hasAnyConnection es i && (childrenIds ns es i).isEmpty)) = true
    · rw [if_pos hcond, if_pos hcond]
      by_cases htc : tasksAllComplete tasks i = true
      · rw [if_pos htc, if_pos htc]
        exact hR1 i _
      · rw [if_neg htc, if_neg htc]
        have hr1 : rule1 ns es tasks σ i =
            (if σ i = NodeState.complete then NodeState.complete
             else NodeState.unavailable) := by
          rw [rule1, rule1Aux_pointwise, if_pos hcond, if_neg htc]
        have hiff : (σf i = NodeState.complete ↔ σ i = NodeState.complete) := by
          refine (hstat i).trans ?_
          rw [hr1]
          by_cases hc : σ i = NodeState.complete
          · simp [hc]
          · simp [hc]
        by_cases hc : σ i = NodeState.complete
        · rw [if_pos hc, if_pos (hiff.mpr hc)]
          exact hR1 i _
        · rw [if_neg hc, if_neg (fun hx => hc (hiff.mp hx))]
          exact hR1 i _
    · rw [if_neg hcond, if_neg hcond]
      right
      refine ⟨rfl, rfl, ?_⟩
      refine (hstat i).trans ?_
      rw [rule1, rule1Aux_pointwise, if_neg hcond]
  have hchain : ∀ j, R j (applyConnectionStateRules ns es tasks σf j) (σf j) := by
    intro j
    have hc3 := rule3Aux_congr ns es R hR1 hR2 es (ns.length + 1) _ _ hpair
    have hc4 := rule4Aux_congr ns es R hR1 hR2 ns _ _ hc3
    exact hc4 j
  funext j
  rcases hchain j with h | ⟨h1, h2, h3⟩
  · exact h
  · exact h1

/-! ## Ancestor lock theorems (C2). -/

/-- C2 counterexample: nodes A=1, B=2, C=3 with edges A→B and B→C, no cached
tasks, and B already `'complete'`.  The claim says the run leaves C
`'unavailable'` (the exception covering only the already-complete node), but
rule 4 sees B complete as C's only child and promotes C to `'in-progress'`. -/
theorem ancestor_lock_counterexample :
    runPass lockNodes lockEdges (fun _ => []) 1 = NodeState.inProgress ∧
    runPass lockNodes lockEdges (fun _ => []) 2 = NodeState.complete ∧
    runPass lockNodes lockEdges (fun _ => []) 3 = NodeState.inProgress ∧
    ¬ runPass lockNodes lockEdges (fun _ => []) 3 = NodeState.unavailable := by
  decide

/-- C2 amended: for distinct nodes A, B, C connected by exactly the edges
A→B and B→C, with no cached tasks, and none of the three already
`'complete'`, one run of the pass leaves A `'in-progress'` and B and C
`'unavailable'`.  (An already-complete node always keeps `'complete'` by the
general preservation invariant, but then the remaining nodes need not follow
the unavailable pattern, as the counterexample shows.) -/
theorem ancestor_lock_amended (a b c : Nat) (sa sb sc : NodeState)
    (xa ya xb yb xc yc : Int) (ea eb ec : Int) (sha shb shc : String)
    (e1 e2 : Nat) (hab : a ≠ b) (hac : a ≠ c) (hbc : b ≠ c)
    (hsa : sa ≠ NodeState.complete) (hsb : sb ≠ NodeState.complete)
    (hsc : sc ≠ NodeState.complete) :
    runPass [⟨a, xa, ya, sa, ea, sha⟩, ⟨b, xb, yb, sb, eb, shb⟩,
        ⟨c, xc, yc, sc, ec, shc⟩]
      [⟨e1, some a, some b⟩, ⟨e2, some b, some c⟩] (fun _ => []) a =
      NodeState.inProgress ∧
    runPass [⟨a, xa, ya, sa, ea, sha⟩, ⟨b, xb, yb, sb, eb, shb⟩,
        ⟨c, xc, yc, sc, ec, shc⟩]
      [⟨e1, some a, some b⟩, ⟨e2, some b, some c⟩] (fun _ => []) b =
      NodeState.unavailable ∧
    runPass [⟨a, xa, ya, sa, ea, sha⟩, ⟨b, xb, yb, sb, eb, shb⟩,
        ⟨c, xc, yc, sc, ec, shc⟩]
      [⟨e1, some a, some b⟩, ⟨e2, some b, some c⟩] (fun _ => []) c =
      NodeState.unavailable := by
  have hba := hab.symm
  have hca := hac.symm
  have hcb := hbc.symm
  refine ⟨?_, ?_, ?_⟩ <;>
  simp [runPass, applyConnectionStateRules, statesOf, rule4, rule4Aux, rule3,
    rule3Fuel, rule3Aux, rule1, rule1Aux, rule1Step, rule3Step, rule4Step,
    markAncestorsUnavailable, markAncList, hasAnyConnection, hasId, childrenIds,
    parentsIds, realPairs, updateState, tasksAllComplete, List.any, List.filter,
    List.filterMap, List.find?, List.foldl, List.all,
    hab, hac, hbc, hba, hca, hcb, hsa, hsb, hsc]

theorem ancestor_lock_amended_witness :
    (1 : Nat) ≠ 2 ∧ (1 : Nat) ≠ 3 ∧ (2 : Nat) ≠ 3 ∧
    runPass [⟨1, 0, 0, NodeState.inProgress, 10, "circle"⟩,
        ⟨2, 0, 0, NodeState.unavailable, 10, "circle"⟩,
        ⟨3, 0, 0, NodeState.inProgress, 10, "circle"⟩]
      [⟨10, some 1, some 2⟩, ⟨11, some 2, some 3⟩] (fun _ => []) 1 =
      NodeState.inProgress ∧
    runPass [⟨(1 : Nat), 0, 0, NodeState.inProgress, 10, "circle"⟩,
        ⟨2, 0, 0, NodeState.unavailable, 10, "circle"⟩,
        ⟨3, 0, 0, NodeState.inProgress, 10, "circle"⟩]
      [⟨10, some 1, some 2⟩, ⟨11, some 2, some 3⟩] (fun _ => []) 2 =
      NodeState.unavailable ∧
    runPass [⟨(1 : Nat), 0, 0, NodeState.inProgress, 10, "circle"⟩,
        ⟨2, 0, 0, NodeState.unavailable, 10, "circle"⟩,
        ⟨3, 0, 0, NodeState.inProgress, 10, "circle"⟩]
      [⟨10, some 1, some 2⟩, ⟨11, some 2, some 3⟩] (fun _ => []) 3 =
      NodeState.unavailable := by
  have h := ancestor_lock_amended 1 2 3 NodeState.inProgress
    NodeState.unavailable NodeState.inProgress 0 0 0 0 0 0 10 10 10
    "circle" "circle" "circle" 10 11 (by decide) (by decide) (by decide)
    (by decide) (by decide) (by decide)
  exact ⟨by decide, by decide, by decide, h.1, h.2.1, h.2.2⟩

/-! ## History theorems (C4, C5). -/

lemma boundedPush_getLast (l : List Snapshot) (a : Snapshot) :
    ((if (l ++ [a]).length > 100 then (l ++ [a]).tail else (l ++ [a])).getLast? =
      some a) ∧
    ((if (l ++ [a]).length > 100 then (l ++ [a]).tail else (l ++ [a])).isEmpty =
      false) := by
  cases l with
  | nil => simp
  | cons x xs =>
    by_cases h : ((x :: xs) ++ [a]).length > 100
    · rw [if_pos h]
      simp only [List.cons_append, List.tail_cons]
      exact ⟨List.getLast?_concat _, by simp⟩
    · rw [if_neg h]
      exact ⟨List.getLast?_concat _, by simp⟩

lemma undo_redo_core (v2 : ViewState) (n0 : List (SkillNode Int))
    (e0 : List SkillEdge) (hlast : v2.historyPast.getLast? = some (n0, e0))
    (hne : v2.historyPast.isEmpty = false) (hfut : v2.historyFuture = []) :
    (undo v2).nodes = n0 ∧ (undo v2).edges = e0 ∧
    (redo (undo v2)).nodes = v2.nodes ∧ (redo (undo v2)).edges = v2.edges := by
  have hu : undo v2 = applySnapshot
      { v2 with
        historyPast := v2.historyPast.dropLast,
        historyFuture := v2.historyFuture ++ [getSnapshot v2] } (n0, e0) := by
    rw [undo, if_neg (by simp [hne]), hlast]
  have huf : (undo v2).historyFuture = [getSnapshot v2] := by
    rw [hu, hfut]
    rfl
  have hr : (redo (undo v2)).nodes = (getSnapshot v2).1 ∧
      (redo (undo v2)).edges = (getSnapshot v2).2 := by
    rw [redo, if_neg (by simp [huf]), huf]
    constructor <;> rfl
  exact ⟨by rw [hu]; rfl, by rw [hu]; rfl, hr.1, hr.2⟩

/-- C4: for every starting view (with history recording enabled) and every
mutation of the graph, `recordSnapshot(); mutate; undo()` restores the
pre-mutation `(nodes, edges)` pair exactly, and a subsequent `redo()` restores
the post-mutation pair exactly. -/
theorem undo_redo_roundtrip (v : ViewState) (p : Snapshot)
    (hs : v.suppressHistory = false) :
    ((undo (setGraph (recordSnapshot v) p.1 p.2)).nodes = v.nodes ∧
      (undo (setGraph (recordSnapshot v) p.1 p.2)).edges = v.edges) ∧
    ((redo (undo (setGraph (recordSnapshot v) p.1 p.2))).nodes = p.1 ∧
      (redo (undo (setGraph (recordSnapshot v) p.1 p.2))).edges = p.2) := by
  have hpush := boundedPush_getLast v.historyPast (getSnapshot v)
  have hrec : recordSnapshot v =
      { v with
        historyPast :=
          if (v.historyPast ++ [getSnapshot v]).length > 100 then
            (v.historyPast ++ [getSnapshot v]).tail
          else v.historyPast ++ [getSnapshot v]
        historyFuture := [] } := by
    rw [recordSnapshot, if_neg (by simp [hs])]
  have hcore := undo_redo_core (setGraph (recordSnapshot v) p.1 p.2)
    v.nodes v.edges (by rw [hrec]; exact hpush.1) (by rw [hrec]; exact hpush.2)
    (by rw [hrec]; rfl)
  refine ⟨⟨hcore.1, hcore.2.1⟩, ?_, ?_⟩
  · rw [hcore.2.2.1]
    rfl
  · rw [hcore.2.2.2]
    rfl

theorem undo_redo_roundtrip_witness :
    sampleView.suppressHistory = false ∧
    (((undo (setGraph (recordSnapshot sampleView) sampleSnap.1 sampleSnap.2)).nodes =
        sampleView.nodes ∧
      (undo (setGraph (recordSnapshot sampleView) sampleSnap.1 sampleSnap.2)).edges =
        sampleView.edges) ∧
    ((redo (undo (setGraph (recordSnapshot sampleView) sampleSnap.1 sampleSnap.2))).nodes =
        sampleSnap.1 ∧
      (redo (undo (setGraph (recordSnapshot sampleView) sampleSnap.1 sampleSnap.2))).edges =
        sampleSnap.2)) :=
  ⟨rfl, undo_redo_roundtrip sampleView sampleSnap rfl⟩

lemma recordedActions_spec (ps : List Snapshot) : ∀ v : ViewState,
    v.suppressHistory = false → v.historyPast.length ≤ 100 →
    (ps.foldl recordedAction v).suppressHistory = false ∧
    (ps.foldl recordedAction v).historyPast =
      (v.historyPast ++ ps).drop ((v.historyPast ++ ps).length - 100) ∧
    (ps.foldl recordedAction v).historyFuture =
      (if ps.isEmpty then v.historyFuture else []) := by
  induction ps with
  | nil =>
    intro v hs hl
    have hz : v.historyPast.length - 100 = 0 := by omega
    refine ⟨hs, ?_, by simp⟩
    simp [hz]
  | cons p ps ih =>
    intro v hs hl
    have hstep : recordedAction v p =
        { v with
          nodes := p.1,
          edges := p.2,
          historyPast :=
            if (v.historyPast ++ [p]).length > 100 then (v.historyPast ++ [p]).tail
            else v.historyPast ++ [p],
          historyFuture := [] } := by
      simp [recordedAction, setGraph, recordSnapshot, hs, getSnapshot]
    rw [List.foldl_cons, hstep]
    by_cases hlen : (v.historyPast ++ [p]).length > 100
    · have h100 : v.historyPast.length = 100 := by
        simp only [List.length_append, List.length_singleton] at hlen
        omega
      obtain ⟨x, xs, hx⟩ : ∃ x xs, v.historyPast = x :: xs := by
        cases hv : v.historyPast with
        | nil => rw [hv] at h100; simp at h100
        | cons x xs => exact ⟨x, xs, rfl⟩
      have hxs : xs.length = 99 := by rw [hx] at h100; simp at h100; omega
      rw [if_pos hlen, hx]
      have hrest := ih
        { v with
          nodes := p.1,
          edges := p.2,
          historyPast := (x :: xs ++ [p]).tail,
          historyFuture := [] } hs (by simp [hxs])
      dsimp only at hrest
      refine ⟨hrest.1, ?_, ?_⟩
      · have hA : (x :: xs ++ [p]).tail ++ ps = xs ++ p :: ps := by simp
        have hC : (x :: xs ++ p :: ps).length - 100 =
            ((xs ++ p :: ps).length - 100) + 1 := by
          simp only [List.length_append, List.length_cons, hxs]
          omega
        refine hrest.2.1.trans ?_
        rw [hA, hC, List.cons_append, List.drop_succ_cons]
      · rw [hrest.2.2]
        simp
    · rw [if_neg hlen]
      have := ih
        { v with
          nodes := p.1,
          edges := p.2,
          historyPast := v.historyPast ++ [p],
          historyFuture := [] } hs (by
            simp only [List.length_append, List.length_singleton] at hlen ⊢
            omega)
      refine ⟨this.1, ?_, ?_⟩
      · rw [this.2.1]
        have e1 : (v.historyPast ++ [p]) ++ ps = v.historyPast ++ p :: ps := by simp
        rw [e1]
      · rw [this.2.2]
        simp

/-- C5: starting from an empty history, 150 recorded actions (recordSnapshot
with the suppress flag off) leave exactly 100 snapshots on the past stack —
the 50 oldest pushed snapshots are dropped — and every recordSnapshot call
with the suppress flag off clears the future (redo) stack. -/
theorem history_bound (ps : List Snapshot) (v : ViewState)
    (hs : v.suppressHistory = false) (hp : v.historyPast = [])
    (hlen : ps.length = 150) :
    ((ps.foldl recordedAction v).historyPast = ps.drop 50 ∧
      (ps.foldl recordedAction v).historyPast.length = 100) ∧
    (∀ u : ViewState, u.suppressHistory = false →
      (recordSnapshot u).historyFuture = []) := by
  have h := recordedActions_spec ps v hs (by rw [hp]; simp)
  have hfifty : (v.historyPast ++ ps).length - 100 = 50 := by
    rw [hp]; simp [hlen]
  constructor
  · constructor
    · rw [h.2.1, hfifty, hp, List.nil_append]
    · rw [h.2.1, hfifty, hp, List.nil_append, List.length_drop, hlen]
  · intro u hu
    simp [recordSnapshot, hu]

theorem history_bound_witness :
    emptyHistoryView.suppressHistory = false ∧
    emptyHistoryView.historyPast = [] ∧
    (List.replicate 150 (([], []) : Snapshot)).length = 150 ∧
    (((List.replicate 150 (([], []) : Snapshot)).foldl recordedAction
        emptyHistoryView).historyPast =
      (List.replicate 150 (([], []) : Snapshot)).drop 50 ∧
      ((List.replicate 150 (([], []) : Snapshot)).foldl recordedAction
        emptyHistoryView).historyPast.length = 100) ∧
    (∀ u : ViewState, u.suppressHistory = false →
      (recordSnapshot u).historyFuture = []) := by
  refine ⟨rfl, rfl, by simp, ?_⟩
  exact history_bound (List.replicate 150 (([], []) : Snapshot)) emptyHistoryView
    rfl rfl (by simp)

/-! ## Edge mutation guard theorem (C7). -/

/-- C7: both edge-list mutations of the mouseup handler reject self-loops and
exact duplicates silently: creating an edge whose `from` equals its `to` or
whose (from,to) pair an existing edge already carries, or reattaching an
endpoint so that the edge would become a self-loop or duplicate an existing
edge (other than itself, by id), leaves the edge list unchanged; both
operations are total functions, so no error is raised. -/
theorem edge_guard_rejects :
    (∀ (es : List SkillEdge) (f t nid : Nat),
      (f = t ∨ ∃ ee ∈ es, ee.efrom = some f ∧ ee.eto = some t) →
      attemptCreateEdge es f t nid = es) ∧
    (∀ (es : List SkillEdge) (eid : Nat) (which : EndpointKind) (tgt : Nat)
      (edge : SkillEdge), es.find? (fun ee => ee.id == eid) = some edge →
      (reattachResultFrom edge which tgt = reattachResultTo edge which tgt ∨
        ∃ ee ∈ es, ee.id ≠ edge.id ∧
          ee.efrom = reattachResultFrom edge which tgt ∧
          ee.eto = reattachResultTo edge which tgt) →
      attemptReattachEdge es eid which tgt = es) := by
  constructor
  · intro es f t nid h
    rcases h with h | ⟨ee, hmem, hf, ht⟩
    · rw [attemptCreateEdge, if_neg]
      simp [h]
    · rw [attemptCreateEdge]
      by_cases hne : t ≠ f
      · rw [if_pos hne, if_pos]
        rw [List.any_eq_true]
        exact ⟨ee, hmem, by simp [hf, ht]⟩
      · rw [if_neg hne]
  · intro es eid which tgt edge hfind h
    simp only [attemptReattachEdge, hfind]
    rw [if_neg]
    intro hcond
    rcases h with h | ⟨ee, hmem, hid, hf, ht⟩
    · apply hcond.1
      cases which with
      | fromEnd =>
        simp only [reattachResultFrom, reattachResultTo] at h
        simpa [reattachOtherEnd] using h
      | toEnd =>
        simp only [reattachResultFrom, reattachResultTo] at h
        simpa [reattachOtherEnd] using h.symm
    · have : es.any (fun ee =>
          ee.id != edge.id && ee.efrom == reattachResultFrom edge which tgt &&
            ee.eto == reattachResultTo edge which tgt) = true := by
        rw [List.any_eq_true]
        exact ⟨ee, hmem, by simp [hid, hf, ht]⟩
      rw [hcond.2] at this
      exact Bool.false_ne_true this

theorem edge_guard_rejects_witness :
    (∃ ee ∈ sampleEdges, ee.efrom = some 2 ∧ ee.eto = some 3) ∧
    attemptCreateEdge sampleEdges 2 3 99 = sampleEdges ∧
    sampleEdges.find? (fun ee => ee.id == 1) = some ⟨1, some 2, some 3⟩ ∧
    reattachResultFrom ⟨1, some 2, some 3⟩ EndpointKind.fromEnd 3 =
      reattachResultTo ⟨1, some 2, some 3⟩ EndpointKind.fromEnd 3 ∧
    attemptReattachEdge sampleEdges 1 EndpointKind.fromEnd 3 = sampleEdges := by
  refine ⟨by decide, ?_, by decide, by decide, ?_⟩
  · exact edge_guard_rejects.1 sampleEdges 2 3 99 (Or.inr (by decide))
  · exact edge_guard_rejects.2 sampleEdges 1 EndpointKind.fromEnd 3
      ⟨1, some 2, some 3⟩ (by decide) (Or.inl (by decide))

/-! ## Node creation theorems (C9). -/

/-- C9 counterexample: the node created by `addNode` (here under the gamified
style, id 1, at the origin) has state `'unavailable'`, not `'in-progress'`,
before any propagation pass runs — refuting the claimed default. -/
theorem addNode_default_state_counterexample :
    (addNode (α := Int) "gamified" 1 0 0).state = NodeState.unavailable ∧
    ¬ (addNode (α := Int) "gamified" 1 0 0).state = NodeState.inProgress := by
  decide

/-- C9 amended: a node created by the add-node operation has lifecycle state
`'unavailable'` (for every style, id and position) before any propagation
pass runs; the add-node operation itself thus assigns Unavailable directly,
outside the State Propagation Engine. -/
theorem addNode_state_unavailable {α : Type} (style : String) (nid : Nat)
    (x y : α) : (addNode style nid x y).state = NodeState.unavailable := rfl

/-! ## Collision avoidance theorems (C8). -/

noncomputable section Geometry

lemma effectiveRadius_nonneg (nodeRadii : Nat → Option ℝ) (settingsRadius : ℝ)
    (i : Nat) (hs : 0 ≤ settingsRadius)
    (hr : ∀ j r, nodeRadii j = some r → 0 ≤ r) :
    0 ≤ effectiveRadius nodeRadii settingsRadius i := by
  unfold effectiveRadius
  cases h : nodeRadii i with
  | none => exact hs
  | some r =>
    dsimp only
    by_cases hz : r = 0
    · rw [if_pos hz]
      exact hs
    · rw [if_neg hz]
      exact hr i r h

lemma push_dist (ox oy θ m : ℝ) (hm : 0 ≤ m) :
    Real.sqrt ((ox + Real.cos θ * m - ox) * (ox + Real.cos θ * m - ox) +
      (oy + Real.sin θ * m - oy) * (oy + Real.sin θ * m - oy)) = m := by
  rw [show (ox + Real.cos θ * m - ox) * (ox + Real.cos θ * m - ox) +
      (oy + Real.sin θ * m - oy) * (oy + Real.sin θ * m - oy) =
      (Real.sin θ ^ 2 + Real.cos θ ^ 2) * m ^ 2 by ring,
    Real.sin_sq_add_cos_sq, one_mul]
  exact Real.sqrt_sq hm

/-- C8 amended: the returned point is the target when no other node conflicts
with it; otherwise it lies at exactly the minimum distance
`r_moving + r_other + 20` from the FIRST conflicting node in node-list order —
the guarantee covers that node only, not every other node, and the node
pushed from is the first conflicting one, not necessarily the nearest. -/
theorem no_overlap_first_conflict (nodes : List (SkillNode ℝ))
    (nodeRadii : Nat → Option ℝ)
    (settingsRadius randAngle targetX targetY : ℝ) (d : SkillNode ℝ)
    (hs : 0 ≤ settingsRadius) (hr : ∀ j r, nodeRadii j = some r → 0 ≤ r) :
    (findNonOverlappingPosition nodes nodeRadii settingsRadius randAngle
        targetX targetY d = (targetX, targetY) ∧
      ∀ o ∈ nodes, o.id ≠ d.id →
        effectiveRadius nodeRadii settingsRadius d.id +
            effectiveRadius nodeRadii settingsRadius o.id + 20 ≤
          Real.sqrt ((targetX - o.x) * (targetX - o.x) +
            (targetY - o.y) * (targetY - o.y))) ∨
    (∃ o ∈ nodes, o.id ≠ d.id ∧
      Real.sqrt ((targetX - o.x) * (targetX - o.x) +
          (targetY - o.y) * (targetY - o.y)) <
        effectiveRadius nodeRadii settingsRadius d.id +
          effectiveRadius nodeRadii settingsRadius o.id + 20 ∧
      Real.sqrt
        (((findNonOverlappingPosition nodes nodeRadii settingsRadius randAngle
              targetX targetY d).1 - o.x) *
            ((findNonOverlappingPosition nodes nodeRadii settingsRadius randAngle
              targetX targetY d).1 - o.x) +
          ((findNonOverlappingPosition nodes nodeRadii settingsRadius randAngle
              targetX targetY d).2 - o.y) *
            ((findNonOverlappingPosition nodes nodeRadii settingsRadius randAngle
              targetX targetY d).2 - o.y)) =
        effectiveRadius nodeRadii settingsRadius d.id +
          effectiveRadius nodeRadii settingsRadius o.id + 20) := by
  rw [findNonOverlappingPosition]
  induction nodes with
  | nil =>
    left
    exact ⟨rfl, by intro o ho; cases ho⟩
  | cons o rest ih =>
    unfold findNonOverlappingPositionAux
    by_cases hido : o.id = d.id
    · rw [if_pos hido]
      rcases ih with ⟨h1, h2⟩ | ⟨w, hw, hrest⟩
      · left
        refine ⟨h1, ?_⟩
        intro p hp hpd
        rcases List.mem_cons.mp hp with hpo | hpr
        · subst hpo
          exact absurd hido hpd
        · exact h2 p hpr hpd
      · right
        exact ⟨w, List.mem_cons_of_mem o hw, hrest⟩
    · rw [if_neg hido]
      dsimp only
      set m := effectiveRadius nodeRadii settingsRadius d.id +
        effectiveRadius nodeRadii settingsRadius o.id + 20 with hm
      have hm0 : 0 ≤ m := by
        rw [hm]
        have h1 := effectiveRadius_nonneg nodeRadii settingsRadius d.id hs hr
        have h2 := effectiveRadius_nonneg nodeRadii settingsRadius o.id hs hr
        linarith
      by_cases hconf : Real.sqrt ((targetX - o.x) * (targetX - o.x) +
          (targetY - o.y) * (targetY - o.y)) < m
      · rw [if_pos hconf]
        right
        refine ⟨o, List.mem_cons_self o rest, hido, hconf, ?_⟩
        by_cases hz : Real.sqrt ((targetX - o.x) * (targetX - o.x) +
            (targetY - o.y) * (targetY - o.y)) < 0.001
        · rw [if_pos hz]
          exact push_dist o.x o.y randAngle m hm0
        · rw [if_neg hz]
          exact push_dist o.x o.y (atan2 (targetY - o.y) (targetX - o.x)) m hm0
      · rw [if_neg hconf]
        rcases ih with ⟨h1, h2⟩ | ⟨w, hw, hrest⟩
        · left
          refine ⟨h1, ?_⟩
          intro p hp hpd
          rcases List.mem_cons.mp hp with hpo | hpr
          · subst hpo
            exact le_of_not_lt hconf
          · exact h2 p hpr hpd
        · right
          exact ⟨w, List.mem_cons_of_mem o hw, hrest⟩

lemma sqrt_lit_sq (x : ℝ) (y : ℝ) (hy : 0 ≤ y) (h : x = y ^ 2) :
    Real.sqrt x = y := by
  rw [h]
  exact Real.sqrt_sq hy

lemma atan2_zero_pos (x : ℝ) (hx : 0 ≤ x) : atan2 0 x = 0 := by
  unfold atan2
  rw [show (⟨x, (0 : ℝ)⟩ : ℂ) = ((x : ℝ) : ℂ) from rfl]
  exact Complex.arg_ofReal_of_nonneg hx

/-- C8 counterexample.  Scenario 1: dragging node 3 (radius 40) to (60,0)
among node 1 at (0,0) and node 2 at (150,0), all radii 40 and margin 20: the
returned point (100,0) lies at distance 50 from node 2, far below the claimed
bound 100 (even allowing an ε of 49).  Scenario 2: with node 2 at (120,0) and
target (70,0), both nodes conflict and node 2 is the nearer one, yet the
point is pushed from node 1 (first in list order) and ends at distance 20
from node 2, not at the minimum distance — refuting the "nearest conflicting
node" description as well. -/
theorem no_overlap_counterexample :
    (findNonOverlappingPosition overlapNodes1 stdRadii 36 0 60 0 dragNode =
        ((100 : ℝ), 0) ∧
      Real.sqrt (((100 : ℝ) - 150) * (100 - 150) + ((0 : ℝ) - 0) * (0 - 0)) +
          49 <
        effectiveRadius stdRadii 36 dragNode.id +
          effectiveRadius stdRadii 36 2 + 20) ∧
    (findNonOverlappingPosition overlapNodes2 stdRadii 36 0 70 0 dragNode =
        ((100 : ℝ), 0) ∧
      Real.sqrt (((70 : ℝ) - 120) * (70 - 120) + ((0 : ℝ) - 0) * (0 - 0)) <
        Real.sqrt (((70 : ℝ) - 0) * (70 - 0) + ((0 : ℝ) - 0) * (0 - 0)) ∧
      Real.sqrt (((70 : ℝ) - 120) * (70 - 120) + ((0 : ℝ) - 0) * (0 - 0)) <
        effectiveRadius stdRadii 36 dragNode.id +
          effectiveRadius stdRadii 36 2 + 20 ∧
      Real.sqrt (((100 : ℝ) - 120) * (100 - 120) + ((0 : ℝ) - 0) * (0 - 0)) ≠
        effectiveRadius stdRadii 36 dragNode.id +
          effectiveRadius stdRadii 36 2 + 20) := by
  have h60 : Real.sqrt 3600 = 60 := sqrt_lit_sq 3600 60 (by norm_num) (by norm_num)
  have h70 : Real.sqrt 4900 = 70 := sqrt_lit_sq 4900 70 (by norm_num) (by norm_num)
  have h50 : Real.sqrt 2500 = 50 := sqrt_lit_sq 2500 50 (by norm_num) (by norm_num)
  have h20 : Real.sqrt 400 = 20 := sqrt_lit_sq 400 20 (by norm_num) (by norm_num)
  have hat60 : atan2 0 60 = 0 := atan2_zero_pos 60 (by norm_num)
  have hat70 : atan2 0 70 = 0 := atan2_zero_pos 70 (by norm_num)
  refine ⟨⟨?_, ?_⟩, ?_, ?_, ?_, ?_⟩
  · norm_num [findNonOverlappingPosition, findNonOverlappingPositionAux,
      overlapNodes1, dragNode, stdRadii, effectiveRadius, h60, hat60,
      Real.cos_zero, Real.sin_zero]
  · norm_num [effectiveRadius, stdRadii, dragNode, h50]
  · norm_num [findNonOverlappingPosition, findNonOverlappingPositionAux,
      overlapNodes2, dragNode, stdRadii, effectiveRadius, h70, hat70,
      Real.cos_zero, Real.sin_zero]
  · norm_num [h50, h70]
  · norm_num [effectiveRadius, stdRadii, dragNode, h50]
  · norm_num [effectiveRadius, stdRadii, dragNode, h20]

theorem no_overlap_first_conflict_witness :
    (0 : ℝ) ≤ 36 ∧ (∀ j r, stdRadii j = some r → 0 ≤ r) ∧
    ((findNonOverlappingPosition overlapNodes1 stdRadii 36 0 60 0 dragNode =
        ((60 : ℝ), 0) ∧
      ∀ o ∈ overlapNodes1, o.id ≠ dragNode.id →
        effectiveRadius stdRadii 36 dragNode.id +
            effectiveRadius stdRadii 36 o.id + 20 ≤
          Real.sqrt (((60 : ℝ) - o.x) * (60 - o.x) +
            ((0 : ℝ) - o.y) * (0 - o.y))) ∨
    (∃ o ∈ overlapNodes1, o.id ≠ dragNode.id ∧
      Real.sqrt (((60 : ℝ) - o.x) * (60 - o.x) +
          ((0 : ℝ) - o.y) * (0 - o.y)) <
        effectiveRadius stdRadii 36 dragNode.id +
          effectiveRadius stdRadii 36 o.id + 20 ∧
      Real.sqrt
        (((findNonOverlappingPosition overlapNodes1 stdRadii 36 0 60 0
              dragNode).1 - o.x) *
            ((findNonOverlappingPosition overlapNodes1 stdRadii 36 0 60 0
              dragNode).1 - o.x) +
          ((findNonOverlappingPosition overlapNodes1 stdRadii 36 0 60 0
              dragNode).2 - o.y) *
            ((findNonOverlappingPosition overlapNodes1 stdRadii 36 0 60 0
              dragNode).2 - o.y)) =
        effectiveRadius stdRadii 36 dragNode.id +
          effectiveRadius stdRadii 36 o.id + 20)) := by
  have hrad : ∀ j r, stdRadii j = some r → 0 ≤ r := by
    intro j r h
    simp only [stdRadii, Option.some.injEq] at h
    rw [← h]
    norm_num
  exact ⟨by norm_num, hrad,
    no_overlap_first_conflict overlapNodes1 stdRadii 36 0 60 0 dragNode
      (by norm_num) hrad⟩

end Geometry

end SkillTree
